import Mathlib

/-!
# RoboFinder: a verification development

A shallow embedding of `robofinder.go` and theorems about it.

Go strings are modelled as lists of runes (`List Char`): the program only
splits on the one-byte separator `"\n"`, compares bytes against the ASCII
byte `'/'`, counts the ASCII substring `"/"` and runs regular expressions,
and for well-formed UTF-8 all of these agree with the same operation on
runes.  The network and the JSON decoder are outside the program; their
results are inputs of the model (`World`).  `Options.Delay` only feeds
`time.Sleep` and is left out.
-/

namespace RoboFinder

/-- A Go string, as its sequence of runes. -/
abbrev Str := List Char

/-! ## Regular expressions (package `regexp`, leftmost-first semantics) -/

/-- Regular-expression syntax, as much of it as the two patterns of the program use. -/
inductive Regex where
  /-- the empty pattern -/
  | eps
  /-- one rune taken from a class -/
  | rune (p : Char → Bool)
  /-- concatenation `rs` -/
  | cat (r s : Regex)
  /-- alternation `r|s`, preferring `r` -/
  | alt (r s : Regex)
  /-- greedy `r?` -/
  | quest (r : Regex)
  /-- greedy `r*` -/
  | star (r : Regex)
  /-- numbered capturing group `(r)` -/
  | group (i : Nat) (r : Regex)

/-- Continuation of a match: what is left of the input and the captures so far. -/
abbrev Cont := Str → List Str → Option (List Str)

/-- Greedy iteration of `step`: as many rounds as possible first, each round consuming
at least one rune; `n` bounds the number of rounds and is the length of the input. -/
def starLoop (step : Str → List Str → Cont → Option (List Str)) :
    Nat → Str → List Str → Cont → Option (List Str)
  | 0, s, c, k => k s c
  | n + 1, s, c, k =>
    (step s c (fun s1 c1 => if s1.length < s.length then starLoop step n s1 c1 k else none)).orElse
      (fun _ => k s c)

/-- Backtracking matcher: the first successful way of matching `r` at the head of the
input, alternatives tried in priority order, then continuing with `k`. -/
def Regex.run : Regex → Str → List Str → Cont → Option (List Str)
  | .eps, s, c, k => k s c
  | .rune p, s, c, k =>
    match s with
    | [] => none
    | x :: xs => if p x then k xs c else none
  | .cat r t, s, c, k => r.run s c (fun s1 c1 => t.run s1 c1 k)
  | .alt r t, s, c, k => (r.run s c k).orElse (fun _ => t.run s c k)
  | .quest r, s, c, k => (r.run s c k).orElse (fun _ => k s c)
  | .star r, s, c, k => starLoop r.run s.length s c k
  | .group i r, s, c, k =>
    r.run s c (fun s1 c1 => k s1 (c1.set i (s.take (s.length - s1.length))))

/-- The match of `re` that starts exactly at the head of `s`, if there is one: the whole
match at index 0 followed by the `n` capturing groups. -/
def matchHere (re : Regex) (n : Nat) (s : Str) : Option (List Str) :=
  re.run s (List.replicate (n + 1) [])
    (fun s1 c1 => some (c1.set 0 (s.take (s.length - s1.length))))

/-- Go `(*Regexp).FindStringSubmatch` for a pattern with `n` capturing groups: the
leftmost match and its groups, or the nil slice (length 0) when nothing matches. -/
def FindStringSubmatch (re : Regex) (n : Nat) : Str → List Str
  | [] => (matchHere re n []).getD []
  | x :: xs =>
    match matchHere re n (x :: xs) with
    | some m => m
    | none => FindStringSubmatch re n xs

/-- The runes a pattern letter matches under `(?i)`: its orbit under Unicode simple
case folding.  For ASCII letters that is the two cases, plus U+017F for `s` and
U+212A for `k`. -/
def foldOrbit (c : Char) : List Char :=
  let lo := if 'A' ≤ c ∧ c ≤ 'Z' then Char.ofNat (c.toNat + 32) else c
  if 'a' ≤ lo ∧ lo ≤ 'z' then
    [lo, Char.ofNat (lo.toNat - 32)] ++
      (if lo = 's' then [Char.ofNat 0x17F] else if lo = 'k' then [Char.ofNat 0x212A] else [])
  else [c]

/-- A literal rune under `(?i)`. -/
def foldLit (c : Char) : Regex := .rune (fun x => decide (x ∈ foldOrbit c))

/-- A literal rune. -/
def lit (c : Char) : Regex := .rune (fun x => x == c)

/-- The class `\s`, which is `[\t\n\f\r ]`. -/
def space : Regex :=
  .rune (fun x => x == '\t' || x == '\n' || x == Char.ofNat 12 || x == '\r' || x == ' ')

/-- The class `.`: any rune but a newline. -/
def dot : Regex := .rune (fun x => x != '\n')

/-- A literal word under `(?i)`, rune by rune. -/
def foldWord (w : Str) : Regex :=
  w.foldr (fun c r => .cat (foldLit c) r) .eps

/-- The common tail `\s?:\s?(.*)` of both patterns, capturing into group `i`. -/
def colonRest (i : Nat) : Regex :=
  .cat (.quest space) (.cat (lit ':') (.cat (.quest space) (.group i (.star dot))))

/-- The pattern `(?i)allow\s?:\s?(.*)`. -/
def addressRegex : Regex :=
  .cat (foldWord "allow".toList) (colonRest 1)

/-- The pattern `(?i)(sitemap|site-map)\s?:\s?(.*)`. -/
def sitemapRegex : Regex :=
  .cat (.group 1 (.alt (foldWord "sitemap".toList) (foldWord "site-map".toList))) (colonRest 2)

/-! ## Package `strings` -/

/-- Go `unicode.ToLower`, exact wherever the result is an ASCII rune: the ASCII capitals,
U+0130 (lower case `i`) and U+212A (lower case `k`).  Every other rune outside ASCII
has a lower case outside ASCII and is left in place here, which makes no difference to
a comparison with an ASCII string. -/
def toLowerRune (c : Char) : Char :=
  if 'A' ≤ c ∧ c ≤ 'Z' then Char.ofNat (c.toNat + 32)
  else if c = Char.ofNat 0x130 then 'i'
  else if c = Char.ofNat 0x212A then 'k'
  else c

/-- Go `strings.ToLower`. -/
def ToLower (s : Str) : Str := s.map toLowerRune

/-- Go `strings.HasPrefix`. -/
def HasPrefix (s p : Str) : Bool := p.isPrefixOf s

/-- Go `strings.Count(s, "/")`. -/
def CountSlash (s : Str) : Nat := s.count '/'

/-- Go `strings.Split(s, "\n")`. -/
def SplitNewline : Str → List Str
  | [] => [[]]
  | c :: cs =>
    if c = '\n' then [] :: SplitNewline cs
    else
      match SplitNewline cs with
      | [] => [[c]]
      | l :: ls => (c :: l) :: ls

/-! ## Maps `map[string]bool` -/

/-- A Go `map[string]bool`: its entries, in the order the keys were first assigned. -/
abbrev GoMap := List (Str × Bool)

/-- Read `m[k]`: the value stored under `k`, or the zero value `false`. -/
def GoMap.get : GoMap → Str → Bool
  | [], _ => false
  | (k1, v1) :: m, k => if k1 = k then v1 else GoMap.get m k

/-- Assign `m[k] = v`: overwrite the entry of `k` or add one. -/
def GoMap.assign : GoMap → Str → Bool → GoMap
  | [], k, v => [(k, v)]
  | (k1, v1) :: m, k, v => if k1 = k then (k1, v) :: m else (k1, v1) :: GoMap.assign m k v

/-- The keys of a map. -/
def GoMap.keys (m : GoMap) : List Str := m.map Prod.fst

/-! ## The program -/

/-- The command-line options (`Delay` left out). -/
structure Options where
  URL : Str
  Limit : Int
  Paths : Bool
  Sitemap : Bool
  Silent : Bool
  Verbose : Bool

/-- One line written to standard output, tagged with the statement that wrote it. -/
inductive Out where
  /-- `fmt.Println` in `checkOptions` -/
  | usage (msg : Str)
  /-- `fmt.Println` in `printMessage` -/
  | message (msg : Str)
  /-- `fmt.Println` in `printVerbose` -/
  | verbose (msg : Str)
  /-- `fmt.Println(finalURL)` -/
  | path (url : Str)
  /-- `fmt.Println(finalSitemap)` -/
  | sitemap (url : Str)
  deriving DecidableEq

/-- The text of an output line. -/
def Out.text : Out → Str
  | .usage s | .message s | .verbose s | .path s | .sitemap s => s

/-- `printMessage`, appending to the output so far. -/
def printMessage (message : Str) (options : Options) (out : List Out) : List Out :=
  if !options.Silent then out ++ [.message message] else out

/-- `printVerbose`, appending to the output so far. -/
def printVerbose (message : Str) (options : Options) (out : List Out) : List Out :=
  if options.Verbose && !options.Silent then out ++ [.verbose message] else out

/-- `checkOptions`: the line it prints, if any, and the status passed to `os.Exit`, or
`none` when it returns. -/
def checkOptions (options : Options) : List Out × Option Nat :=
  if options.URL = [] then
    ([.usage "[-] Enter URL in following format: scheme://domain.tld".toList], some 1)
  else if !HasPrefix (ToLower options.URL) "http".toList then
    ([.usage "[-] Enter URL with its scheme. (http|https)".toList], some 1)
  else if CountSlash options.URL > 3 then
    ([.usage "[-] Only enter domain name, not full URL\nFormat: scheme://domain.tld".toList],
      some 1)
  else if options.Silent && options.Verbose then
    ([.usage "[-] Cannot use -q with -v at the same time.".toList], some 1)
  else if !options.Paths && !options.Sitemap then
    ([.usage "[-] Either use -p or -sm in order to extract data.".toList], some 1)
  else ([], none)

/-- The result of `http.Get` followed by `ioutil.ReadAll`. -/
inductive Fetched where
  | requestError (err : Str)
  | readError (err : Str)
  | body (b : Str)

/-- What lies outside the program: the archive, reached over HTTP (the `i`-th request of
the snapshot loop may answer differently from an earlier one for the same address), and
`json.Unmarshal` into a `[][]string`. -/
structure World where
  index : Str → Fetched
  unmarshal : Str → Except Str (List (List Str))
  snapshot : Nat → Str → Fetched

/-- The body of the loop over `response[1:]`: `none` is the run-time panic of an index
out of range. -/
def requestAddress (item : List Str) : Option Str :=
  match item with
  | timestamp :: address :: _ =>
    some ("http://web.archive.org/web/".toList ++ timestamp ++ "if_/".toList ++ address)
  | _ => none

/-- The loop over the rows `response[1:]`, appending to `timestamps`. -/
def timestampsLoop : List (List Str) → List Str → Option (List Str)
  | [], timestamps => some timestamps
  | item :: rows, timestamps =>
    match requestAddress item with
    | none => none
    | some a => timestampsLoop rows (timestamps ++ [a])

/-- The index phase after decoding: `response[1:]` panics on a response of no rows. -/
def indexTimestamps (response : List (List Str)) : Option (List Str) :=
  match response with
  | [] => none
  | _ :: rows => timestampsLoop rows []

/-- The two registers of the snapshot phase and the output so far. -/
structure State where
  targetSitemaps : GoMap
  targetURLs : GoMap
  out : List Out

/-- The canonical path of a path match (`finalURL`). -/
def finalURL (baseDomain : Str) (addressMatches : List Str) : Str :=
  let matchedAddress := addressMatches.getD 1 []
  let matchedAddress :=
    if matchedAddress.length > 0 then
      if matchedAddress.head? ≠ some '/' then '/' :: matchedAddress else matchedAddress
    else matchedAddress
  baseDomain ++ matchedAddress

/-- The sitemap of a sitemap match (`finalSitemap`). -/
def finalSitemap (sitemapMatches : List Str) : Str := sitemapMatches.getD 2 []

/-- The body of the loop over the lines of a snapshot. -/
def lineStep (options : Options) (baseDomain : Str) (st : State) (line : Str) : State :=
  let addressMatches := FindStringSubmatch addressRegex 1 line
  let sitemapMatches := FindStringSubmatch sitemapRegex 2 line
  let st :=
    if addressMatches.length > 0 then
      let url := finalURL baseDomain addressMatches
      { st with
        out := if options.Paths && !st.targetURLs.get url then st.out ++ [.path url] else st.out
        targetURLs := st.targetURLs.assign url true }
    else st
  if sitemapMatches.length > 0 then
    let sm := finalSitemap sitemapMatches
    { st with
      out := if options.Sitemap && !st.targetSitemaps.get sm then st.out ++ [.sitemap sm]
        else st.out
      targetSitemaps := st.targetSitemaps.assign sm true }
  else st

/-- Extraction from one snapshot body: the loop over its lines. -/
def extract (options : Options) (baseDomain : Str) (st : State) (body : Str) : State :=
  (SplitNewline body).foldl (lineStep options baseDomain) st

/-- The body of the loop over `timestamps`, for the `i`-th of them. -/
def snapshotStep (options : Options) (w : World) (baseDomain : Str) (i : Nat) (st : State)
    (timestamp : Str) : State :=
  let st := { st with
    out := printVerbose ("[DEBUG] Getting New Timestamp Data.\n\t".toList ++ timestamp)
      options st.out }
  match w.snapshot i timestamp with
  | .requestError err =>
    { st with out := printVerbose ("[DEBUG] Error On Request: ".toList ++ err) options st.out }
  | .readError err =>
    { st with
      out := printVerbose ("[DEBUG] Error reading response: ".toList ++ err) options st.out }
  | .body body => extract options baseDomain st body

/-- The loop over `timestamps`, from the `i`-th request on. -/
def snapshotLoop (options : Options) (w : World) (baseDomain : Str) :
    Nat → List Str → State → State
  | _, [], st => st
  | i, timestamp :: rest, st =>
    snapshotLoop options w baseDomain (i + 1) rest (snapshotStep options w baseDomain i st timestamp)

/-- How the process ends: `os.Exit(code)`, a return from `main` (status 0), or a
run-time panic (the Go runtime then exits with status 2 and writes to standard error). -/
inductive Status where
  | exit (code : Nat)
  | panic
  deriving DecidableEq

/-- A run: the lines written to standard output and how the process ended. -/
structure Run where
  out : List Out
  status : Status

/-- The value of `baseDomain` computed at the start of `main`, `none` when reading the
last byte of an empty URL panics. -/
def baseDomainOf (url : Str) : Option Str :=
  match url.getLast? with
  | none => none
  | some last => some (if last = '/' then url.dropLast else url)

/-- The address of the index query. -/
def timestampsURL (baseDomain : Str) (limit : Int) : Str :=
  let domain := baseDomain ++ "/robots.txt".toList
  "https://web.archive.org/cdx/search/cdx?url=".toList ++ domain ++
    "&output=json&filter=statuscode:200&fl=timestamp,original&collapse=digest&limit=".toList ++
    (toString limit).toList

/-- The two closing notices of `main`. -/
def notices (options : Options) (st : State) : List Out :=
  let out :=
    if options.Paths && !options.Silent && st.targetURLs.length == 0 then
      printMessage "[-] No URL was found from robots.txt".toList options st.out
    else st.out
  if options.Sitemap && !options.Silent && st.targetSitemaps.length == 0 then
    printMessage "[-] No sitemap was found from robots.txt".toList options out
  else out

/-- The snapshot phase of `main`, from the two progress messages to the closing notices. -/
def snapshotPhase (options : Options) (w : World) (baseDomain : Str) (timestamps : List Str)
    (out : List Out) : State :=
  let out := printMessage
    ("[+] Found [".toList ++ (toString timestamps.length).toList ++ "] Timestamps.".toList)
    options out
  let out := printMessage "[+] Fetching timestamps".toList options out
  snapshotLoop options w baseDomain 0 timestamps
    { targetSitemaps := [], targetURLs := [], out := out }

/-- The program: `main`, run on parsed options in a given world. -/
def main (options : Options) (w : World) : Run :=
  match checkOptions options with
  | (out, some code) => { out := out, status := .exit code }
  | (out, none) =>
    match baseDomainOf options.URL with
    | none => { out := out, status := .panic }
    | some baseDomain =>
      match w.index (timestampsURL baseDomain options.Limit) with
      | .requestError err =>
        { out := printVerbose ("[DEBUG] Request error: ".toList ++ err) options out
          status := .exit 1 }
      | .readError err =>
        { out := printVerbose ("[DEBUG] Error reading response: ".toList ++ err) options out
          status := .exit 1 }
      | .body body =>
        match w.unmarshal body with
        | .error err =>
          { out := printVerbose ("[DEBUG] Error unmarshalling response: ".toList ++ err)
              options out
            status := .exit 1 }
        | .ok response =>
          match indexTimestamps response with
          | none => { out := out, status := .panic }
          | some timestamps =>
            let st := snapshotPhase options w baseDomain timestamps out
            { out := notices options st, status := .exit 0 }

/-! ## Observations used in the statements -/

/-- What `\s?` leaves of the text after the colon: it takes the first rune when that is
white space. -/
def skipSpace : Str → Str
  | [] => []
  | x :: xs =>
    if x == '\t' || x == '\n' || x == Char.ofNat 12 || x == '\r' || x == ' ' then xs else x :: xs

/-- The path lines of an output, in order. -/
def pathLines (out : List Out) : List Str :=
  out.filterMap (fun e => match e with | .path u => some u | _ => none)

/-- The sitemap lines of an output, in order. -/
def sitemapLines (out : List Out) : List Str :=
  out.filterMap (fun e => match e with | .sitemap u => some u | _ => none)

/-- Every value stored in the map is `true`. -/
def AllTrue (m : GoMap) : Prop := ∀ e ∈ m, e.2 = true

/-- Spec wording: the text begins with `http`, in any letter case. -/
def beginsWithHttpAnyCase : Str → Bool
  | c0 :: c1 :: c2 :: c3 :: _ =>
    (c0 == 'h' || c0 == 'H') && (c1 == 't' || c1 == 'T') && (c2 == 't' || c2 == 'T') &&
      (c3 == 'p' || c3 == 'P')
  | _ => false

/-- The invariant of the snapshot phase: no key occurs twice in a register, every stored
value is `true`, and the path (sitemap) lines printed so far are the keys of the path
(sitemap) register in the order of their first assignment when `-p` (`-sm`) is set, and
none otherwise. -/
def Inv (options : Options) (st : State) : Prop :=
  st.targetURLs.keys.Nodup ∧ st.targetSitemaps.keys.Nodup ∧
  AllTrue st.targetURLs ∧ AllTrue st.targetSitemaps ∧
  pathLines st.out = (if options.Paths = true then st.targetURLs.keys else []) ∧
  sitemapLines st.out = (if options.Sitemap = true then st.targetSitemaps.keys else [])

/-- The bodies of the snapshots fetched without error, in order, from the `i`-th request
on. -/
def fetchedBodies (w : World) : Nat → List Str → List Str
  | _, [] => []
  | i, timestamp :: rest =>
    match w.snapshot i timestamp with
    | .body body => body :: fetchedBodies w (i + 1) rest
    | _ => fetchedBodies w (i + 1) rest

/-- The closing notice about paths. -/
def noURLNotice : Out := .message "[-] No URL was found from robots.txt".toList

/-- The closing notice about sitemaps. -/
def noSitemapNotice : Out := .message "[-] No sitemap was found from robots.txt".toList

/-- A raw line of discovery: a printed canonical path or a printed sitemap. -/
def Out.isRaw : Out → Bool
  | .path _ => true
  | .sitemap _ => true
  | _ => false

/-- No closing notice among the lines. -/
def NoNotice (out : List Out) : Prop := ∀ e ∈ out, e ≠ noURLNotice ∧ e ≠ noSitemapNotice

/-- The runes of the class `\s` of the two patterns. -/
def isSpace (x : Char) : Bool :=
  x == '\t' || x == '\n' || x == Char.ofNat 12 || x == '\r' || x == ' '

/-- The text `u` is the base domain `b` followed by nothing or by a text that begins with
`/`. -/
def IsJoined (b u : Str) : Prop :=
  ∃ suffix : Str, u = b ++ suffix ∧ (suffix = [] ∨ suffix.head? = some '/')

/-- The registers already hold, with value `true`, what the line would register. -/
def Covers (b : Str) (st : State) (line : Str) : Prop :=
  ((FindStringSubmatch addressRegex 1 line).length > 0 →
    st.targetURLs.get (finalURL b (FindStringSubmatch addressRegex 1 line)) = true) ∧
  ((FindStringSubmatch sitemapRegex 2 line).length > 0 →
    st.targetSitemaps.get (finalSitemap (FindStringSubmatch sitemapRegex 2 line)) = true)

/-- The lines of a sequence of bodies, body by body and line by line. -/
def allLines : List Str → List Str
  | [] => []
  | body :: rest => SplitNewline body ++ allLines rest

/-- The canonical paths of the path-matching lines, in the order of the lines, repeated
as often as they occur. -/
def pathCandidates (b : Str) (lines : List Str) : List Str :=
  lines.filterMap (fun line =>
    if (FindStringSubmatch addressRegex 1 line).length > 0 then
      some (finalURL b (FindStringSubmatch addressRegex 1 line))
    else none)

/-- The sitemaps of the sitemap-matching lines, in the order of the lines, repeated as
often as they occur. -/
def sitemapCandidates (lines : List Str) : List Str :=
  lines.filterMap (fun line =>
    if (FindStringSubmatch sitemapRegex 2 line).length > 0 then
      some (finalSitemap (FindStringSubmatch sitemapRegex 2 line))
    else none)

/-- Spec wording: deduplication in the order of first occurrence. The head is kept and
its later occurrences are dropped. -/
def dedupFirst : List Str → List Str
  | [] => []
  | x :: xs => x :: (dedupFirst xs).filter (fun y => decide (y ≠ x))

/-! ## The regular expressions on the lines of the specification -/

theorem run_eps (s : Str) (c : List Str) (k : Cont) : Regex.eps.run s c k = k s c := rfl

theorem run_cat (r t : Regex) (s : Str) (c : List Str) (k : Cont) :
    (Regex.cat r t).run s c k = r.run s c (fun s1 c1 => t.run s1 c1 k) := rfl

theorem run_alt (r t : Regex) (s : Str) (c : List Str) (k : Cont) :
    (Regex.alt r t).run s c k = (r.run s c k).orElse (fun _ => t.run s c k) := rfl

theorem run_quest (r : Regex) (s : Str) (c : List Str) (k : Cont) :
    (Regex.quest r).run s c k = (r.run s c k).orElse (fun _ => k s c) := rfl

theorem run_group (i : Nat) (r : Regex) (s : Str) (c : List Str) (k : Cont) :
    (Regex.group i r).run s c k =
      r.run s c (fun s1 c1 => k s1 (c1.set i (s.take (s.length - s1.length)))) := rfl

theorem run_rune_nil (p : Char → Bool) (c : List Str) (k : Cont) :
    (Regex.rune p).run [] c k = none := rfl

theorem run_rune_cons (p : Char → Bool) (x : Char) (xs : Str) (c : List Str) (k : Cont) :
    (Regex.rune p).run (x :: xs) c k = if p x then k xs c else none := rfl

/-- On a text without newline, `.*` takes all of it when what follows accepts that. -/
theorem run_star_dot (f : Str) (hf : '\n' ∉ f) (c : List Str) (k : Cont)
    (hk : (k [] c).isSome) : (Regex.star dot).run f c k = k [] c := by
  show starLoop dot.run f.length f c k = k [] c
  induction f with
  | nil => rfl
  | cons x xs ih =>
    have hx : x ≠ '\n' := fun h => hf (h ▸ List.mem_cons_self _ _)
    have hxs : '\n' ∉ xs := fun h => hf (List.mem_cons_of_mem _ h)
    have h1 : dot.run (x :: xs) c
        (fun s1 c1 => if s1.length < (x :: xs).length then starLoop dot.run xs.length s1 c1 k
          else none) = starLoop dot.run xs.length xs c k := by
      simp [dot, run_rune_cons, hx]
    show (dot.run (x :: xs) c _).orElse _ = _
    rw [h1, ih hxs]
    cases h : k [] c with
    | none => simp [h] at hk
    | some v => rfl

theorem run_colonRest (i : Nat) (rest : Str) (hf : '\n' ∉ rest) (c : List Str) (k : Cont)
    (hk : ∀ c1, (k [] c1).isSome) :
    (colonRest i).run (':' :: rest) c k = k [] (c.set i (skipSpace rest)) := by
  have hstar : ∀ (f : Str), '\n' ∉ f →
      (Regex.group i (Regex.star dot)).run f c k = k [] (c.set i f) := by
    intro f hf1
    rw [run_group, run_star_dot f hf1 c
      (fun s1 c1 => k s1 (c1.set i (f.take (f.length - s1.length)))) (hk _)]
    simp
  cases rest with
  | nil =>
    simp only [colonRest, run_cat, run_quest, space, lit, run_rune_cons, run_rune_nil]
    simp [Option.orElse, hstar, skipSpace]
  | cons x xs =>
    have hx : x ≠ '\n' := fun h => hf (h ▸ List.mem_cons_self _ _)
    have hxs : '\n' ∉ xs := fun h => hf (List.mem_cons_of_mem _ h)
    simp only [colonRest, run_cat, run_quest, space, lit, run_rune_cons]
    by_cases hw : (x == '\t' || x == '\n' || x == Char.ofNat 12 || x == '\r' || x == ' ') = true
    · have h2 := hk (c.set i xs)
      simp [Option.orElse, hstar _ hxs, hstar _ hf, skipSpace, hw]
      cases h : k [] (c.set i xs) with
      | none => simp [h] at h2
      | some v => rfl
    · simp [Option.orElse, hstar _ hf, skipSpace, hw]

/-- The path pattern at the head of `allow:` in any letter case. -/
theorem matchHere_address (a l1 l2 o w : Char) (ha : a ∈ foldOrbit 'a')
    (hl1 : l1 ∈ foldOrbit 'l') (hl2 : l2 ∈ foldOrbit 'l') (ho : o ∈ foldOrbit 'o')
    (hw : w ∈ foldOrbit 'w') (rest : Str) (hf : '\n' ∉ rest) :
    matchHere addressRegex 1 (a :: l1 :: l2 :: o :: w :: ':' :: rest)
      = some [a :: l1 :: l2 :: o :: w :: ':' :: rest, skipSpace rest] := by
  simp only [matchHere, addressRegex, foldWord, foldLit, String.toList, List.foldr, run_cat,
    run_eps, run_rune_cons]
  rw [if_pos (by simpa using ha), if_pos (by simpa using hl1), if_pos (by simpa using hl2),
    if_pos (by simpa using ho), if_pos (by simpa using hw),
    run_colonRest 1 rest hf _ _ (by intro; rfl)]
  simp

/-- The path pattern cannot start at a rune outside the orbit of `a`. -/
theorem matchHere_address_none (x : Char) (xs : Str) (h : x ∉ foldOrbit 'a') :
    matchHere addressRegex 1 (x :: xs) = none := by
  simp [matchHere, addressRegex, foldWord, foldLit, String.toList, run_cat, run_rune_cons, h]

theorem find_allow (rest : Str) (hf : '\n' ∉ rest) :
    FindStringSubmatch addressRegex 1 ("Allow:".toList ++ rest)
      = ["Allow:".toList ++ rest, skipSpace rest] := by
  have h := matchHere_address 'A' 'l' 'l' 'o' 'w' (by decide) (by decide) (by decide)
    (by decide) (by decide) rest hf
  simp only [String.toList, List.cons_append, List.nil_append] at h ⊢
  rw [FindStringSubmatch, h]

theorem find_disallow (rest : Str) (hf : '\n' ∉ rest) :
    FindStringSubmatch addressRegex 1 ("Disallow:".toList ++ rest)
      = ["allow:".toList ++ rest, skipSpace rest] := by
  have h := matchHere_address 'a' 'l' 'l' 'o' 'w' (by decide) (by decide) (by decide)
    (by decide) (by decide) rest hf
  simp only [String.toList, List.cons_append, List.nil_append] at h ⊢
  rw [FindStringSubmatch, matchHere_address_none _ _ (by decide),
    FindStringSubmatch, matchHere_address_none _ _ (by decide),
    FindStringSubmatch, matchHere_address_none _ _ (by decide),
    FindStringSubmatch, h]

theorem matchHere_sitemap (rest : Str) (hf : '\n' ∉ rest) :
    matchHere sitemapRegex 2 ("Sitemap:".toList ++ rest)
      = some ["Sitemap:".toList ++ rest, "Sitemap".toList, skipSpace rest] := by
  simp only [matchHere, sitemapRegex, foldWord, foldLit, String.toList, List.foldr, run_cat,
    run_eps, run_rune_cons, run_group, run_alt, List.cons_append, List.nil_append]
  rw [if_pos (by decide), if_pos (by decide), if_pos (by decide), if_pos (by decide),
    if_pos (by decide), if_pos (by decide), if_pos (by decide),
    run_colonRest 2 rest hf _ _ (by intro; rfl)]
  simp [Option.orElse]

theorem find_sitemap (rest : Str) (hf : '\n' ∉ rest) :
    FindStringSubmatch sitemapRegex 2 ("Sitemap:".toList ++ rest)
      = ["Sitemap:".toList ++ rest, "Sitemap".toList, skipSpace rest] := by
  have h := matchHere_sitemap rest hf
  simp only [String.toList, List.cons_append, List.nil_append] at h ⊢
  rw [FindStringSubmatch, h]

theorem SplitNewline_of_not_mem (s : Str) (h : '\n' ∉ s) : SplitNewline s = [s] := by
  induction s with
  | nil => rfl
  | cons x xs ih =>
    have hx : x ≠ '\n' := fun e => h (e ▸ List.mem_cons_self _ _)
    have hxs : '\n' ∉ xs := fun e => h (List.mem_cons_of_mem _ e)
    simp [SplitNewline, hx, ih hxs]


/-! ## Maps and output lines -/

theorem keys_assign (m : GoMap) (k : Str) (v : Bool) :
    (m.assign k v).keys = if k ∈ m.keys then m.keys else m.keys ++ [k] := by
  induction m with
  | nil => simp [GoMap.assign, GoMap.keys]
  | cons e m ih =>
    obtain ⟨k1, v1⟩ := e
    simp only [GoMap.keys] at ih ⊢
    by_cases h : k1 = k
    · simp [GoMap.assign, h]
    · have h2 : ¬ k = k1 := fun e => h e.symm
      simp only [GoMap.assign, h, if_false, List.map_cons, ih, List.mem_cons, h2, false_or]
      split <;> simp

theorem nodup_keys_assign (m : GoMap) (k : Str) (v : Bool) (h : m.keys.Nodup) :
    (m.assign k v).keys.Nodup := by
  rw [keys_assign]
  split
  · exact h
  · rename_i hk
    exact List.nodup_append.mpr ⟨h, List.nodup_singleton k, by simpa using hk⟩

theorem allTrue_assign (m : GoMap) (k : Str) (h : AllTrue m) : AllTrue (m.assign k true) := by
  induction m with
  | nil => intro e he; simp [GoMap.assign] at he; simp [he]
  | cons e m ih =>
    obtain ⟨k1, v1⟩ := e
    have h1 : AllTrue m := fun e he => h e (List.mem_cons_of_mem _ he)
    intro x hx
    by_cases hk : k1 = k
    · simp only [GoMap.assign, hk, if_true, List.mem_cons] at hx
      rcases hx with rfl | hx
      · rfl
      · exact h1 x hx
    · simp only [GoMap.assign, hk, if_false, List.mem_cons] at hx
      rcases hx with rfl | hx
      · exact h _ (List.mem_cons_self _ _)
      · exact ih h1 x hx

theorem get_iff_mem_keys (m : GoMap) (k : Str) (h : AllTrue m) :
    m.get k = true ↔ k ∈ m.keys := by
  induction m with
  | nil => simp [GoMap.get, GoMap.keys]
  | cons e m ih =>
    obtain ⟨k1, v1⟩ := e
    have h1 : AllTrue m := fun e he => h e (List.mem_cons_of_mem _ he)
    have hv : v1 = true := h (k1, v1) (List.mem_cons_self _ _)
    simp only [GoMap.keys] at ih ⊢
    by_cases hk : k1 = k
    · simp [GoMap.get, hk, hv]
    · have h2 : ¬ k = k1 := fun e => hk e.symm
      simp [GoMap.get, hk, h2, ih h1]

theorem pathLines_append (a b : List Out) : pathLines (a ++ b) = pathLines a ++ pathLines b := by
  simp [pathLines]

theorem sitemapLines_append (a b : List Out) :
    sitemapLines (a ++ b) = sitemapLines a ++ sitemapLines b := by
  simp [sitemapLines]

theorem pathLines_printVerbose (m : Str) (o : Options) (out : List Out) :
    pathLines (printVerbose m o out) = pathLines out := by
  unfold printVerbose; split <;> simp [pathLines]

theorem pathLines_printMessage (m : Str) (o : Options) (out : List Out) :
    pathLines (printMessage m o out) = pathLines out := by
  unfold printMessage; split <;> simp [pathLines]

theorem sitemapLines_printVerbose (m : Str) (o : Options) (out : List Out) :
    sitemapLines (printVerbose m o out) = sitemapLines out := by
  unfold printVerbose; split <;> simp [sitemapLines]

theorem sitemapLines_printMessage (m : Str) (o : Options) (out : List Out) :
    sitemapLines (printMessage m o out) = sitemapLines out := by
  unfold printMessage; split <;> simp [sitemapLines]

/-! ## One line of a snapshot -/

theorem lineStep_targetURLs (o : Options) (b : Str) (st : State) (line : Str) :
    (lineStep o b st line).targetURLs =
      if (FindStringSubmatch addressRegex 1 line).length > 0 then
        st.targetURLs.assign (finalURL b (FindStringSubmatch addressRegex 1 line)) true
      else st.targetURLs := by
  unfold lineStep
  by_cases h1 : (FindStringSubmatch addressRegex 1 line).length > 0 <;>
  by_cases h2 : (FindStringSubmatch sitemapRegex 2 line).length > 0 <;>
  simp [h1, h2]

theorem lineStep_targetSitemaps (o : Options) (b : Str) (st : State) (line : Str) :
    (lineStep o b st line).targetSitemaps =
      if (FindStringSubmatch sitemapRegex 2 line).length > 0 then
        st.targetSitemaps.assign (finalSitemap (FindStringSubmatch sitemapRegex 2 line)) true
      else st.targetSitemaps := by
  unfold lineStep
  by_cases h1 : (FindStringSubmatch addressRegex 1 line).length > 0 <;>
  by_cases h2 : (FindStringSubmatch sitemapRegex 2 line).length > 0 <;>
  simp [h1, h2]

theorem lineStep_pathLines (o : Options) (b : Str) (st : State) (line : Str) :
    pathLines (lineStep o b st line).out =
      pathLines st.out ++
        if (FindStringSubmatch addressRegex 1 line).length > 0 ∧ o.Paths = true ∧
            st.targetURLs.get (finalURL b (FindStringSubmatch addressRegex 1 line)) = false then
          [finalURL b (FindStringSubmatch addressRegex 1 line)]
        else [] := by
  unfold lineStep
  by_cases h1 : (FindStringSubmatch addressRegex 1 line).length > 0 <;>
  by_cases h2 : (FindStringSubmatch sitemapRegex 2 line).length > 0 <;>
  by_cases h3 : o.Paths = true <;>
  by_cases h4 : o.Sitemap = true <;>
  cases h5 : st.targetURLs.get (finalURL b (FindStringSubmatch addressRegex 1 line)) <;>
  cases h6 : st.targetSitemaps.get (finalSitemap (FindStringSubmatch sitemapRegex 2 line)) <;>
  simp [h1, h2, h3, h4, h5, h6, pathLines]

theorem lineStep_sitemapLines (o : Options) (b : Str) (st : State) (line : Str) :
    sitemapLines (lineStep o b st line).out =
      sitemapLines st.out ++
        if (FindStringSubmatch sitemapRegex 2 line).length > 0 ∧ o.Sitemap = true ∧
            st.targetSitemaps.get (finalSitemap (FindStringSubmatch sitemapRegex 2 line)) = false
        then [finalSitemap (FindStringSubmatch sitemapRegex 2 line)]
        else [] := by
  unfold lineStep
  by_cases h1 : (FindStringSubmatch addressRegex 1 line).length > 0 <;>
  by_cases h2 : (FindStringSubmatch sitemapRegex 2 line).length > 0 <;>
  by_cases h3 : o.Paths = true <;>
  by_cases h4 : o.Sitemap = true <;>
  cases h5 : st.targetURLs.get (finalURL b (FindStringSubmatch addressRegex 1 line)) <;>
  cases h6 : st.targetSitemaps.get (finalSitemap (FindStringSubmatch sitemapRegex 2 line)) <;>
  simp [h1, h2, h3, h4, h5, h6, sitemapLines]


theorem extract_single (o : Options) (b : Str) (st : State) (line : Str) (h : '\n' ∉ line) :
    extract o b st line = lineStep o b st line := by
  simp [extract, SplitNewline_of_not_mem line h]

theorem finalURL_slash (b whole f : Str) (h : f.head? = some '/') :
    finalURL b [whole, f] = b ++ f := by
  simp [finalURL, h]

/-- C1: for a fragment `f` that starts with `/` and has no newline, the single line
`Allow: f`, and likewise `Disallow: f`, matches the path pattern with canonical path
`b ++ f`, and extraction registers exactly that path and prints it when `-p` is set and
it is new. -/
theorem extract_allow_line (options : Options) (b f d : Str) (st : State)
    (hd : d = "Allow: ".toList ∨ d = "Disallow: ".toList)
    (hslash : f.head? = some '/') (hnl : '\n' ∉ f) :
    (FindStringSubmatch addressRegex 1 (d ++ f)).length > 0 ∧
    finalURL b (FindStringSubmatch addressRegex 1 (d ++ f)) = b ++ f ∧
    (extract options b st (d ++ f)).targetURLs = st.targetURLs.assign (b ++ f) true ∧
    pathLines (extract options b st (d ++ f)).out =
      pathLines st.out ++
        (if options.Paths = true ∧ st.targetURLs.get (b ++ f) = false then [b ++ f] else []) := by
  have hsp : '\n' ∉ ' ' :: f := by
    intro h
    rcases List.mem_cons.mp h with h | h
    · exact absurd h (by decide)
    · exact hnl h
  have hfind : ∃ whole, FindStringSubmatch addressRegex 1 (d ++ f) = [whole, f] ∧ '\n' ∉ d ++ f := by
    rcases hd with rfl | rfl
    · refine ⟨"Allow: ".toList ++ f, ?_, ?_⟩
      · have := find_allow (' ' :: f) hsp
        simpa [skipSpace] using this
      · simp [hnl]
    · refine ⟨"allow: ".toList ++ f, ?_, ?_⟩
      · have := find_disallow (' ' :: f) hsp
        simpa [skipSpace] using this
      · simp [hnl]
  obtain ⟨whole, hm, hline⟩ := hfind
  have hu : finalURL b (FindStringSubmatch addressRegex 1 (d ++ f)) = b ++ f := by
    rw [hm]; exact finalURL_slash b whole f hslash
  have hlen : (FindStringSubmatch addressRegex 1 (d ++ f)).length > 0 := by rw [hm]; simp
  refine ⟨hlen, hu, ?_, ?_⟩
  · rw [extract_single _ _ _ _ hline, lineStep_targetURLs, if_pos hlen, hu]
  · rw [extract_single _ _ _ _ hline, lineStep_pathLines, hu]
    simp [hlen]

/-! ## Single lines -/

theorem extract_allow_line_witness :
    ("Disallow: ".toList = "Allow: ".toList ∨ "Disallow: ".toList = "Disallow: ".toList) ∧
    "/secret".toList.head? = some '/' ∧ '\n' ∉ "/secret".toList ∧
    finalURL "http://example.com".toList
        (FindStringSubmatch addressRegex 1 ("Disallow: ".toList ++ "/secret".toList))
      = "http://example.com".toList ++ "/secret".toList ∧
    "/admin".toList.head? = some '/' ∧ '\n' ∉ "/admin".toList ∧
    (extract ⟨[], 10, true, false, false, false⟩ "http://example.com".toList ⟨[], [], []⟩
        ("Allow: ".toList ++ "/admin".toList)).targetURLs
      = GoMap.assign [] ("http://example.com".toList ++ "/admin".toList) true :=
  ⟨Or.inr rfl, rfl, by decide,
    (extract_allow_line ⟨[], 10, true, false, false, false⟩ "http://example.com".toList
      "/secret".toList "Disallow: ".toList ⟨[], [], []⟩ (Or.inr rfl) rfl (by decide)).2.1,
    rfl, by decide,
    (extract_allow_line ⟨[], 10, true, false, false, false⟩ "http://example.com".toList
      "/admin".toList "Allow: ".toList ⟨[], [], []⟩ (Or.inl rfl) rfl (by decide)).2.2.1⟩

/-- C2: for a text `u` without newline, the single line `Sitemap: u` matches the sitemap
pattern with sitemap `u` itself, and extraction registers exactly `u` and prints it when
`-sm` is set and it is new; the base domain plays no part. -/
theorem extract_sitemap_line (options : Options) (b u : Str) (st : State) (hnl : '\n' ∉ u) :
    (FindStringSubmatch sitemapRegex 2 ("Sitemap: ".toList ++ u)).length > 0 ∧
    finalSitemap (FindStringSubmatch sitemapRegex 2 ("Sitemap: ".toList ++ u)) = u ∧
    (extract options b st ("Sitemap: ".toList ++ u)).targetSitemaps
      = st.targetSitemaps.assign u true ∧
    sitemapLines (extract options b st ("Sitemap: ".toList ++ u)).out =
      sitemapLines st.out ++
        (if options.Sitemap = true ∧ st.targetSitemaps.get u = false then [u] else []) := by
  have hsp : '\n' ∉ ' ' :: u := by
    intro h
    rcases List.mem_cons.mp h with h | h
    · exact absurd h (by decide)
    · exact hnl h
  have hline : '\n' ∉ "Sitemap: ".toList ++ u := by simp [hnl]
  have hm : FindStringSubmatch sitemapRegex 2 ("Sitemap: ".toList ++ u)
      = ["Sitemap: ".toList ++ u, "Sitemap".toList, u] := by
    have := find_sitemap (' ' :: u) hsp
    simpa [skipSpace] using this
  have hlen : (FindStringSubmatch sitemapRegex 2 ("Sitemap: ".toList ++ u)).length > 0 := by
    rw [hm]; simp
  have hu : finalSitemap (FindStringSubmatch sitemapRegex 2 ("Sitemap: ".toList ++ u)) = u := by
    rw [hm]; rfl
  refine ⟨hlen, hu, ?_, ?_⟩
  · rw [extract_single _ _ _ _ hline, lineStep_targetSitemaps, if_pos hlen, hu]
  · rw [extract_single _ _ _ _ hline, lineStep_sitemapLines, hu]
    simp only [hlen, true_and]

theorem extract_sitemap_line_witness :
    '\n' ∉ "http://example.com/sitemap.xml".toList ∧
    (extract ⟨[], 10, false, true, false, false⟩ "http://example.com".toList ⟨[], [], []⟩
      ("Sitemap: ".toList ++ "http://example.com/sitemap.xml".toList)).targetSitemaps
      = [("http://example.com/sitemap.xml".toList, true)] :=
  ⟨by decide,
    (extract_sitemap_line ⟨[], 10, false, true, false, false⟩ "http://example.com".toList
      "http://example.com/sitemap.xml".toList ⟨[], [], []⟩ (by decide)).2.2.1⟩

/-- C4: a path match whose captured fragment is empty has the base domain itself as
canonical path, nothing prepended; the line `Allow:` is such a match, and extraction
registers the base domain for it. -/
theorem empty_fragment_gives_baseDomain (options : Options) (b : Str) (st : State) :
    (∀ whole : Str, finalURL b [whole, []] = b) ∧
    FindStringSubmatch addressRegex 1 "Allow:".toList = ["Allow:".toList, []] ∧
    (extract options b st "Allow:".toList).targetURLs = st.targetURLs.assign b true ∧
    pathLines (extract options b st "Allow:".toList).out =
      pathLines st.out ++
        (if options.Paths = true ∧ st.targetURLs.get b = false then [b] else []) := by
  have hm : FindStringSubmatch addressRegex 1 "Allow:".toList = ["Allow:".toList, []] := by
    decide
  have hline : '\n' ∉ "Allow:".toList := by decide
  have hu : finalURL b (FindStringSubmatch addressRegex 1 "Allow:".toList) = b := by
    rw [hm]; simp [finalURL]
  have hlen : (FindStringSubmatch addressRegex 1 "Allow:".toList).length > 0 := by
    rw [hm]; simp
  refine ⟨fun whole => by simp [finalURL], hm, ?_, ?_⟩
  · rw [extract_single _ _ _ _ hline, lineStep_targetURLs, if_pos hlen, hu]
  · rw [extract_single _ _ _ _ hline, lineStep_pathLines, hu]
    simp only [hlen, true_and]

/-! ## Validation of the options -/

theorem capital_cases (c : Char) (h1 : 'A' ≤ c) (h2 : c ≤ 'Z') (P : Char → Prop)
    (h : ∀ n, 65 ≤ n → n ≤ 90 → P (Char.ofNat n)) : P c := by
  have e : c = Char.ofNat c.toNat := (Char.ofNat_toNat c).symm
  rw [e]
  exact h _ h1 h2

theorem toLowerRune_eq (c t u : Char)
    (ht : (t = 'h' ∧ u = 'H') ∨ (t = 't' ∧ u = 'T') ∨ (t = 'p' ∧ u = 'P')) :
    toLowerRune c = t ↔ c = t ∨ c = u := by
  unfold toLowerRune
  by_cases hr : 'A' ≤ c ∧ c ≤ 'Z'
  · rw [if_pos hr]
    refine capital_cases c hr.1 hr.2
      (fun c => Char.ofNat (c.toNat + 32) = t ↔ c = t ∨ c = u) ?_
    intro n h1 h2
    rcases ht with ⟨rfl, rfl⟩ | ⟨rfl, rfl⟩ | ⟨rfl, rfl⟩ <;> interval_cases n <;> decide
  · rw [if_neg hr]
    have hu : c ≠ u := by
      rintro rfl
      rcases ht with ⟨_, rfl⟩ | ⟨_, rfl⟩ | ⟨_, rfl⟩ <;> exact hr (by decide)
    by_cases h1 : c = Char.ofNat 0x130
    · rw [if_pos h1]
      subst h1
      rcases ht with ⟨rfl, rfl⟩ | ⟨rfl, rfl⟩ | ⟨rfl, rfl⟩ <;> decide
    · rw [if_neg h1]
      by_cases h2 : c = Char.ofNat 0x212A
      · rw [if_pos h2]
        subst h2
        rcases ht with ⟨rfl, rfl⟩ | ⟨rfl, rfl⟩ | ⟨rfl, rfl⟩ <;> decide
      · rw [if_neg h2]
        simp [hu]

/-- The test of the source, `strings.HasPrefix(strings.ToLower(url), "http")`, says that
the URL begins with `http` in any letter case. -/
theorem hasPrefix_toLower_http (s : Str) :
    HasPrefix (ToLower s) "http".toList = beginsWithHttpAnyCase s := by
  have hh : ∀ c, 'h' = toLowerRune c ↔ c = 'h' ∨ c = 'H' :=
    fun c => eq_comm.trans (toLowerRune_eq c 'h' 'H' (Or.inl ⟨rfl, rfl⟩))
  have ht : ∀ c, 't' = toLowerRune c ↔ c = 't' ∨ c = 'T' :=
    fun c => eq_comm.trans (toLowerRune_eq c 't' 'T' (Or.inr (Or.inl ⟨rfl, rfl⟩)))
  have hp : ∀ c, 'p' = toLowerRune c ↔ c = 'p' ∨ c = 'P' :=
    fun c => eq_comm.trans (toLowerRune_eq c 'p' 'P' (Or.inr (Or.inr ⟨rfl, rfl⟩)))
  match s with
  | [] => rfl
  | [_] => simp [HasPrefix, ToLower, beginsWithHttpAnyCase, List.isPrefixOf]
  | [_, _] => simp [HasPrefix, ToLower, beginsWithHttpAnyCase, List.isPrefixOf]
  | [_, _, _] => simp [HasPrefix, ToLower, beginsWithHttpAnyCase, List.isPrefixOf]
  | c0 :: c1 :: c2 :: c3 :: rest =>
    simp only [HasPrefix, ToLower, beginsWithHttpAnyCase, List.isPrefixOf, String.toList,
      List.map_cons]
    rw [Bool.eq_iff_iff]
    simp [hh, ht, hp, and_assoc]

/-- C5: `checkOptions` ends the process, with status 1, exactly when the URL is empty, or
does not begin with `http` in any letter case, or holds more than three `/`, or both
`Silent` and `Verbose` are set, or neither `Paths` nor `Sitemap` is set; otherwise it
returns, having printed nothing. -/
theorem checkOptions_exit_iff (options : Options) :
    ((checkOptions options).2 = some 1 ↔
      (options.URL = [] ∨ beginsWithHttpAnyCase options.URL = false ∨
        options.URL.count '/' > 3 ∨ (options.Silent = true ∧ options.Verbose = true) ∨
        (options.Paths = false ∧ options.Sitemap = false))) ∧
    ((checkOptions options).2 = some 1 ∨ checkOptions options = ([], none)) := by
  unfold checkOptions
  rw [hasPrefix_toLower_http]
  simp only [CountSlash]
  by_cases h1 : options.URL = []
  · simp [h1]
  by_cases h2 : beginsWithHttpAnyCase options.URL = false
  · simp [h1, h2]
  by_cases h3 : options.URL.count '/' > 3
  · simp [h1, h2, h3]
  by_cases h4 : options.Silent = true ∧ options.Verbose = true
  · simp [h1, h2, h3, h4]
  by_cases h5 : options.Paths = false ∧ options.Sitemap = false
  · simp [h1, h2, h3, h4, h5]
  · have h4b : (options.Silent && options.Verbose) = false := by
      cases hs : options.Silent <;> cases hv : options.Verbose <;> simp_all
    have h5b : (!options.Paths && !options.Sitemap) = false := by
      cases hs : options.Paths <;> cases hv : options.Sitemap <;> simp_all
    simp [h1, h2, h3, h4, h5, h4b, h5b]

/-- C6 (the code at the failing input): a URL with a path segment after the domain and
three `/` in all passes `checkOptions`, which returns without a message. -/
theorem checkOptions_accepts_path_segment :
    checkOptions ⟨"http://example.com/admin".toList, 10, true, false, false, false⟩
      = ([], none) := by
  decide

/-! ## The index phase -/

theorem timestampsLoop_rows (rows : List (List Str)) (acc : List Str)
    (h : ∀ r ∈ rows, 2 ≤ r.length) :
    timestampsLoop rows acc = some (acc ++ rows.map (fun r =>
      "http://web.archive.org/web/".toList ++ r.getD 0 [] ++ "if_/".toList ++ r.getD 1 [])) := by
  induction rows generalizing acc with
  | nil => simp [timestampsLoop]
  | cons r rows ih =>
    have hr := h r (List.mem_cons_self _ _)
    have hrows : ∀ r ∈ rows, 2 ≤ r.length := fun x hx => h x (List.mem_cons_of_mem _ hx)
    match r, hr with
    | t :: a :: rest, _ =>
      simp only [timestampsLoop, requestAddress]
      rw [ih _ hrows]
      simp

/-- C7: on a decoded response made of a header row and data rows of at least two columns
each, the index phase drops the header and yields one snapshot address per data row, in
the order of the rows, built from the first two columns; a response of the header alone
yields none. -/
theorem indexTimestamps_rows (header : List Str) (rows : List (List Str))
    (h : ∀ r ∈ rows, 2 ≤ r.length) :
    indexTimestamps (header :: rows) = some (rows.map (fun r =>
      "http://web.archive.org/web/".toList ++ r.getD 0 [] ++ "if_/".toList ++ r.getD 1 [])) ∧
    (∀ ts, indexTimestamps (header :: rows) = some ts → ts.length = rows.length) ∧
    indexTimestamps [header] = some [] := by
  have h1 := timestampsLoop_rows rows [] h
  simp only [List.nil_append] at h1
  refine ⟨h1, ?_, rfl⟩
  intro ts hts
  have h2 : indexTimestamps (header :: rows) = timestampsLoop rows [] := rfl
  rw [h2, h1] at hts
  cases hts
  simp

theorem indexTimestamps_rows_witness :
    (∀ r ∈ [["20200101000000".toList, "http://example.com/robots.txt".toList]],
      2 ≤ r.length) ∧
    indexTimestamps [["timestamp".toList, "original".toList],
        ["20200101000000".toList, "http://example.com/robots.txt".toList]]
      = some ["http://web.archive.org/web/20200101000000if_/http://example.com/robots.txt".toList] :=
  ⟨by decide,
    (indexTimestamps_rows ["timestamp".toList, "original".toList]
      [["20200101000000".toList, "http://example.com/robots.txt".toList]] (by decide)).1⟩

/-- C8 (the code at the failing input): a decoded response whose data row has one column
makes the index phase panic on `item[1]`, with nothing printed even in verbose mode,
whereas a payload that fails to decode ends the run with `os.Exit(1)`. -/
theorem short_row_panics :
    main ⟨"http://example.com".toList, 10, true, false, false, true⟩
        ⟨fun _ => .body [], fun _ => .ok [["timestamp".toList, "original".toList],
          ["20200101000000".toList]], fun _ _ => .requestError []⟩
      = ⟨[], .panic⟩ ∧
    (main ⟨"http://example.com".toList, 10, true, false, false, true⟩
        ⟨fun _ => .body [], fun _ => .error "EOF".toList,
          fun _ _ => .requestError []⟩).status = .exit 1 := by
  constructor <;> rfl

/-! ## The snapshot phase -/

theorem lineStep_inv (o : Options) (b : Str) (st : State) (line : Str) (h : Inv o st) :
    Inv o (lineStep o b st line) := by
  obtain ⟨h1, h2, h3, h4, h5, h6⟩ := h
  refine ⟨?_, ?_, ?_, ?_, ?_, ?_⟩
  · rw [lineStep_targetURLs]; split
    · exact nodup_keys_assign _ _ _ h1
    · exact h1
  · rw [lineStep_targetSitemaps]; split
    · exact nodup_keys_assign _ _ _ h2
    · exact h2
  · rw [lineStep_targetURLs]; split
    · exact allTrue_assign _ _ h3
    · exact h3
  · rw [lineStep_targetSitemaps]; split
    · exact allTrue_assign _ _ h4
    · exact h4
  · rw [lineStep_pathLines, lineStep_targetURLs, h5]
    by_cases hm : (FindStringSubmatch addressRegex 1 line).length > 0
    · by_cases hp : o.Paths = true
      · by_cases hk : finalURL b (FindStringSubmatch addressRegex 1 line) ∈ st.targetURLs.keys
        · have hg := (get_iff_mem_keys _ _ h3).mpr hk
          simp [hm, hp, hk, hg, keys_assign]
        · have hg : st.targetURLs.get (finalURL b (FindStringSubmatch addressRegex 1 line))
              = false := by
            cases hv : st.targetURLs.get (finalURL b (FindStringSubmatch addressRegex 1 line))
            · rfl
            · exact absurd ((get_iff_mem_keys _ _ h3).mp hv) hk
          simp [hm, hp, hk, hg, keys_assign]
      · simp [hm, hp]
    · simp [hm]
  · rw [lineStep_sitemapLines, lineStep_targetSitemaps, h6]
    by_cases hm : (FindStringSubmatch sitemapRegex 2 line).length > 0
    · by_cases hp : o.Sitemap = true
      · by_cases hk : finalSitemap (FindStringSubmatch sitemapRegex 2 line)
            ∈ st.targetSitemaps.keys
        · have hg := (get_iff_mem_keys _ _ h4).mpr hk
          simp [hm, hp, hk, hg, keys_assign]
        · have hg : st.targetSitemaps.get (finalSitemap (FindStringSubmatch sitemapRegex 2 line))
              = false := by
            cases hv : st.targetSitemaps.get
                (finalSitemap (FindStringSubmatch sitemapRegex 2 line))
            · rfl
            · exact absurd ((get_iff_mem_keys _ _ h4).mp hv) hk
          simp [hm, hp, hk, hg, keys_assign]
      · simp [hm, hp]
    · simp [hm]

theorem foldl_lineStep_inv (o : Options) (b : Str) (lines : List Str) (st : State)
    (h : Inv o st) : Inv o (lines.foldl (lineStep o b) st) := by
  induction lines generalizing st with
  | nil => exact h
  | cons l ls ih => exact ih _ (lineStep_inv o b st l h)

theorem extract_inv (o : Options) (b : Str) (st : State) (body : Str) (h : Inv o st) :
    Inv o (extract o b st body) :=
  foldl_lineStep_inv o b _ st h

theorem inv_printVerbose (o : Options) (st : State) (m : Str) (h : Inv o st) :
    Inv o { st with out := printVerbose m o st.out } := by
  obtain ⟨h1, h2, h3, h4, h5, h6⟩ := h
  exact ⟨h1, h2, h3, h4, by simpa [pathLines_printVerbose] using h5,
    by simpa [sitemapLines_printVerbose] using h6⟩

theorem snapshotStep_inv (o : Options) (w : World) (b : Str) (i : Nat) (st : State)
    (t : Str) (h : Inv o st) : Inv o (snapshotStep o w b i st t) := by
  unfold snapshotStep
  have h0 := inv_printVerbose o st ("[DEBUG] Getting New Timestamp Data.\n\t".toList ++ t) h
  cases w.snapshot i t with
  | requestError err => exact inv_printVerbose o _ _ h0
  | readError err => exact inv_printVerbose o _ _ h0
  | body body => exact extract_inv o b _ body h0

theorem snapshotLoop_inv (o : Options) (w : World) (b : Str) (ts : List Str) (i : Nat)
    (st : State) (h : Inv o st) : Inv o (snapshotLoop o w b i ts st) := by
  induction ts generalizing i st with
  | nil => exact h
  | cons t ts ih => exact ih _ _ (snapshotStep_inv o w b i st t h)

theorem snapshotPhase_inv (o : Options) (w : World) (b : Str) (ts : List Str) :
    Inv o (snapshotPhase o w b ts []) := by
  unfold snapshotPhase
  apply snapshotLoop_inv
  refine ⟨List.nodup_nil, List.nodup_nil, ?_, ?_, ?_, ?_⟩
  · intro e he; cases he
  · intro e he; cases he
  · show pathLines (printMessage _ o (printMessage _ o [])) = _
    rw [pathLines_printMessage, pathLines_printMessage]
    split <;> rfl
  · show sitemapLines (printMessage _ o (printMessage _ o [])) = _
    rw [sitemapLines_printMessage, sitemapLines_printMessage]
    split <;> rfl

theorem nodup_of_inv (o : Options) (st : State) (h : Inv o st) :
    (pathLines st.out).Nodup ∧ (sitemapLines st.out).Nodup := by
  obtain ⟨h1, h2, _, _, h5, h6⟩ := h
  rw [h5, h6]
  constructor
  · split
    · exact h1
    · exact List.nodup_nil
  · split
    · exact h2
    · exact List.nodup_nil

theorem pathLines_notices (o : Options) (st : State) :
    pathLines (notices o st) = pathLines st.out := by
  unfold notices
  split <;> split <;> simp [pathLines_printMessage]

theorem sitemapLines_notices (o : Options) (st : State) :
    sitemapLines (notices o st) = sitemapLines st.out := by
  unfold notices
  split <;> split <;> simp [sitemapLines_printMessage]

theorem checkOptions_out (o : Options) :
    ((checkOptions o).2 = none → (checkOptions o).1 = []) ∧
    pathLines (checkOptions o).1 = [] ∧ sitemapLines (checkOptions o).1 = [] := by
  unfold checkOptions
  split_ifs <;> simp [pathLines, sitemapLines]

/-- The ways `main` can come out: stopped by `checkOptions`, by a panic or by a failure of
the index phase, with no path or sitemap line printed; or through the snapshot phase to
the closing notices. -/
theorem main_out (o : Options) (w : World) :
    (pathLines (main o w).out = [] ∧ sitemapLines (main o w).out = []) ∨
    ∃ b ts, (main o w).out = notices o (snapshotPhase o w b ts []) := by
  have hc := checkOptions_out o
  unfold main
  split
  · rename_i out code hco
    rw [hco] at hc
    exact Or.inl ⟨hc.2.1, hc.2.2⟩
  · rename_i out hco
    rw [hco] at hc
    have hout : out = [] := hc.1 rfl
    subst hout
    split
    · exact Or.inl ⟨rfl, rfl⟩
    · split
      · exact Or.inl ⟨pathLines_printVerbose _ _ _, sitemapLines_printVerbose _ _ _⟩
      · exact Or.inl ⟨pathLines_printVerbose _ _ _, sitemapLines_printVerbose _ _ _⟩
      · split
        · exact Or.inl ⟨pathLines_printVerbose _ _ _, sitemapLines_printVerbose _ _ _⟩
        · split
          · exact Or.inl ⟨rfl, rfl⟩
          · exact Or.inr ⟨_, _, rfl⟩

/-- C3 (counterexample): with `-p` and `-sm` set, the body `Allow: /s` followed by the
line `Sitemap: http://example.com/s` makes the run print the text `http://example.com/s`
twice, once as a path and once as a sitemap: the lines written are not free of
repetition. -/
theorem same_text_printed_twice :
    (main ⟨"http://example.com".toList, 10, true, true, true, false⟩
        ⟨fun _ => .body [], fun _ => .ok [["timestamp".toList, "original".toList],
          ["20200101000000".toList, "http://example.com/robots.txt".toList]],
          fun _ _ => .body "Allow: /s\nSitemap: http://example.com/s".toList⟩).out
      = [Out.path "http://example.com/s".toList, Out.sitemap "http://example.com/s".toList] ∧
    (main ⟨"http://example.com".toList, 10, true, true, true, false⟩
        ⟨fun _ => .body [], fun _ => .ok [["timestamp".toList, "original".toList],
          ["20200101000000".toList, "http://example.com/robots.txt".toList]],
          fun _ _ => .body "Allow: /s\nSitemap: http://example.com/s".toList⟩).out.map Out.text
      = ["http://example.com/s".toList, "http://example.com/s".toList] ∧
    ¬ ((main ⟨"http://example.com".toList, 10, true, true, true, false⟩
        ⟨fun _ => .body [], fun _ => .ok [["timestamp".toList, "original".toList],
          ["20200101000000".toList, "http://example.com/robots.txt".toList]],
          fun _ _ => .body "Allow: /s\nSitemap: http://example.com/s".toList⟩).out.map
            Out.text).Nodup := by
  decide

/-- C3 (amended): in every run no text is printed twice as a path line and no text is
printed twice as a sitemap line, and at the end of the snapshot phase, whatever the base
domain, the snapshot addresses and the answers of the archive, neither register holds a
key twice.  (A text that is both a canonical path and a sitemap can be printed once by
each of the two print statements.) -/
theorem no_duplicate_entries (options : Options) (w : World) :
    (pathLines (main options w).out).Nodup ∧ (sitemapLines (main options w).out).Nodup ∧
    ∀ (b : Str) (ts : List Str),
      (snapshotPhase options w b ts []).targetURLs.keys.Nodup ∧
      (snapshotPhase options w b ts []).targetSitemaps.keys.Nodup := by
  refine ⟨?_, ?_, fun b ts => ⟨(snapshotPhase_inv options w b ts).1,
    (snapshotPhase_inv options w b ts).2.1⟩⟩
  · rcases main_out options w with h | ⟨b, ts, h⟩
    · rw [h.1]; exact List.nodup_nil
    · rw [h, pathLines_notices]
      exact (nodup_of_inv _ _ (snapshotPhase_inv options w b ts)).1
  · rcases main_out options w with h | ⟨b, ts, h⟩
    · rw [h.2]; exact List.nodup_nil
    · rw [h, sitemapLines_notices]
      exact (nodup_of_inv _ _ (snapshotPhase_inv options w b ts)).2

/-! ## Silent mode -/

theorem printMessage_silent (m : Str) (o : Options) (out : List Out) (h : o.Silent = true) :
    printMessage m o out = out := by
  simp [printMessage, h]

theorem printVerbose_silent (m : Str) (o : Options) (out : List Out) (h : o.Silent = true) :
    printVerbose m o out = out := by
  simp [printVerbose, h]

theorem lineStep_out (o : Options) (b : Str) (st : State) (line : Str) :
    (lineStep o b st line).out = st.out ++
      ((if (FindStringSubmatch addressRegex 1 line).length > 0 ∧ o.Paths = true ∧
            st.targetURLs.get (finalURL b (FindStringSubmatch addressRegex 1 line)) = false then
          [Out.path (finalURL b (FindStringSubmatch addressRegex 1 line))]
        else []) ++
      (if (FindStringSubmatch sitemapRegex 2 line).length > 0 ∧ o.Sitemap = true ∧
            st.targetSitemaps.get (finalSitemap (FindStringSubmatch sitemapRegex 2 line)) = false
        then [Out.sitemap (finalSitemap (FindStringSubmatch sitemapRegex 2 line))]
        else [])) := by
  unfold lineStep
  by_cases h1 : (FindStringSubmatch addressRegex 1 line).length > 0 <;>
  by_cases h2 : (FindStringSubmatch sitemapRegex 2 line).length > 0 <;>
  by_cases h3 : o.Paths = true <;>
  by_cases h4 : o.Sitemap = true <;>
  cases h5 : st.targetURLs.get (finalURL b (FindStringSubmatch addressRegex 1 line)) <;>
  cases h6 : st.targetSitemaps.get (finalSitemap (FindStringSubmatch sitemapRegex 2 line)) <;>
  simp [h1, h2, h3, h4, h5, h6]

theorem lineStep_raw (o : Options) (b : Str) (st : State) (line : Str)
    (h : ∀ e ∈ st.out, e.isRaw = true) : ∀ e ∈ (lineStep o b st line).out, e.isRaw = true := by
  rw [lineStep_out]
  intro e he
  rcases List.mem_append.mp he with he | he
  · exact h e he
  · rcases List.mem_append.mp he with he | he
    · split at he
      · rw [List.mem_singleton.mp he]; rfl
      · cases he
    · split at he
      · rw [List.mem_singleton.mp he]; rfl
      · cases he

theorem foldl_lineStep_raw (o : Options) (b : Str) (lines : List Str) (st : State)
    (h : ∀ e ∈ st.out, e.isRaw = true) :
    ∀ e ∈ (lines.foldl (lineStep o b) st).out, e.isRaw = true := by
  induction lines generalizing st with
  | nil => exact h
  | cons l ls ih => exact ih _ (lineStep_raw o b st l h)

theorem snapshotStep_raw (o : Options) (w : World) (b : Str) (i : Nat) (st : State) (t : Str)
    (hs : o.Silent = true) (h : ∀ e ∈ st.out, e.isRaw = true) :
    ∀ e ∈ (snapshotStep o w b i st t).out, e.isRaw = true := by
  unfold snapshotStep
  cases w.snapshot i t with
  | requestError err => simpa [printVerbose_silent _ _ _ hs] using h
  | readError err => simpa [printVerbose_silent _ _ _ hs] using h
  | body body =>
    exact foldl_lineStep_raw o b _ _ (by simpa [printVerbose_silent _ _ _ hs] using h)

theorem snapshotLoop_raw (o : Options) (w : World) (b : Str) (ts : List Str) (i : Nat)
    (st : State) (hs : o.Silent = true) (h : ∀ e ∈ st.out, e.isRaw = true) :
    ∀ e ∈ (snapshotLoop o w b i ts st).out, e.isRaw = true := by
  induction ts generalizing i st with
  | nil => exact h
  | cons t ts ih => exact ih _ _ (snapshotStep_raw o w b i st t hs h)

theorem notices_silent (o : Options) (st : State) (hs : o.Silent = true) :
    notices o st = st.out := by
  simp [notices, hs]

theorem checkOptions_code (o : Options) (code : Nat) (h : (checkOptions o).2 = some code) :
    code = 1 ∧ ∃ m, (checkOptions o).1 = [Out.usage m] := by
  unfold checkOptions at h ⊢
  split_ifs at h ⊢ <;> simp at h ⊢ <;> exact h.symm

/-- C10 (counterexample): with `-s` set and no URL given, the run prints the usage line of
`checkOptions`, which is not a discovered path or sitemap. -/
theorem silent_run_prints_usage :
    (⟨[], 10, true, false, true, false⟩ : Options).Silent = true ∧
    (main ⟨[], 10, true, false, true, false⟩
        ⟨fun _ => .body [], fun _ => .ok [], fun _ _ => .body []⟩).out
      = [Out.usage "[-] Enter URL in following format: scheme://domain.tld".toList] ∧
    (Out.usage "[-] Enter URL in following format: scheme://domain.tld".toList).isRaw = false :=
  ⟨rfl, rfl, rfl⟩

/-- C10 (amended): with `-s` set, every line written to standard output is a discovered
path or sitemap, except that a run stopped by `checkOptions` prints the one message of
`checkOptions` and nothing else; no progress, notice or debug line is printed. -/
theorem silent_output (options : Options) (w : World) (hs : options.Silent = true) :
    (∀ e ∈ (main options w).out, e.isRaw = true) ∨
    ((checkOptions options).2 = some 1 ∧ (main options w).status = .exit 1 ∧
      ∃ m, (main options w).out = [Out.usage m]) := by
  unfold main
  split
  · rename_i out code hco
    right
    have hc := checkOptions_code options code (by rw [hco])
    obtain ⟨rfl, m, hm⟩ := hc
    rw [hco] at hm
    exact ⟨by rw [hco], rfl, m, hm⟩
  · rename_i out hco
    have hout : out = [] := by
      have := (checkOptions_out options).1
      rw [hco] at this
      exact this rfl
    subst hout
    left
    split
    · intro e he; cases he
    · split
      · rw [printVerbose_silent _ _ _ hs]; intro e he; cases he
      · rw [printVerbose_silent _ _ _ hs]; intro e he; cases he
      · split
        · rw [printVerbose_silent _ _ _ hs]; intro e he; cases he
        · split
          · intro e he; cases he
          · show ∀ e ∈ notices options _, _
            rw [notices_silent _ _ hs]
            unfold snapshotPhase
            apply snapshotLoop_raw _ _ _ _ _ _ hs
            simp [printMessage_silent _ _ _ hs]

theorem silent_output_witness :
    (⟨"http://example.com".toList, 10, true, true, true, false⟩ : Options).Silent = true ∧
    ∀ e ∈ (main ⟨"http://example.com".toList, 10, true, true, true, false⟩
        ⟨fun _ => .body [], fun _ => .ok [["timestamp".toList, "original".toList],
          ["20200101000000".toList, "http://example.com/robots.txt".toList]],
          fun _ _ => .body "Allow: /admin\nSitemap: http://example.com/sitemap.xml".toList⟩).out,
        e.isRaw = true :=
  ⟨rfl, (silent_output _ _ rfl).resolve_right (fun h => absurd h.1 (by decide))⟩

/-! ## The closing notices -/

theorem assign_ne_nil (m : GoMap) (k : Str) (v : Bool) : m.assign k v ≠ [] := by
  cases m with
  | nil => simp [GoMap.assign]
  | cons e m =>
    obtain ⟨k1, v1⟩ := e
    by_cases h : k1 = k <;> simp [GoMap.assign, h]

theorem length_pos_iff_ne_nil (l : List Str) : l.length > 0 ↔ l ≠ [] := by
  cases l <;> simp

theorem lineStep_targetURLs_nil (o : Options) (b : Str) (st : State) (line : Str) :
    (lineStep o b st line).targetURLs = [] ↔
      st.targetURLs = [] ∧ FindStringSubmatch addressRegex 1 line = [] := by
  rw [lineStep_targetURLs]
  by_cases h : (FindStringSubmatch addressRegex 1 line).length > 0
  · rw [if_pos h]
    have h2 := (length_pos_iff_ne_nil _).mp h
    simp [assign_ne_nil, h2]
  · rw [if_neg h]
    have h2 : FindStringSubmatch addressRegex 1 line = [] := by
      by_contra hne
      exact h ((length_pos_iff_ne_nil _).mpr hne)
    simp [h2]

theorem lineStep_targetSitemaps_nil (o : Options) (b : Str) (st : State) (line : Str) :
    (lineStep o b st line).targetSitemaps = [] ↔
      st.targetSitemaps = [] ∧ FindStringSubmatch sitemapRegex 2 line = [] := by
  rw [lineStep_targetSitemaps]
  by_cases h : (FindStringSubmatch sitemapRegex 2 line).length > 0
  · rw [if_pos h]
    have h2 := (length_pos_iff_ne_nil _).mp h
    simp [assign_ne_nil, h2]
  · rw [if_neg h]
    have h2 : FindStringSubmatch sitemapRegex 2 line = [] := by
      by_contra hne
      exact h ((length_pos_iff_ne_nil _).mpr hne)
    simp [h2]

theorem foldl_lineStep_nil (o : Options) (b : Str) (lines : List Str) (st : State) :
    ((lines.foldl (lineStep o b) st).targetURLs = [] ↔
      st.targetURLs = [] ∧ ∀ line ∈ lines, FindStringSubmatch addressRegex 1 line = []) ∧
    ((lines.foldl (lineStep o b) st).targetSitemaps = [] ↔
      st.targetSitemaps = [] ∧ ∀ line ∈ lines, FindStringSubmatch sitemapRegex 2 line = []) := by
  induction lines generalizing st with
  | nil => simp
  | cons l ls ih =>
    simp only [List.foldl_cons, (ih _).1, (ih _).2, lineStep_targetURLs_nil,
      lineStep_targetSitemaps_nil, List.forall_mem_cons, and_assoc]
    exact ⟨trivial, trivial⟩

theorem snapshotLoop_nil (o : Options) (w : World) (b : Str) (ts : List Str) (i : Nat)
    (st : State) :
    ((snapshotLoop o w b i ts st).targetURLs = [] ↔
      st.targetURLs = [] ∧ ∀ body ∈ fetchedBodies w i ts, ∀ line ∈ SplitNewline body,
        FindStringSubmatch addressRegex 1 line = []) ∧
    ((snapshotLoop o w b i ts st).targetSitemaps = [] ↔
      st.targetSitemaps = [] ∧ ∀ body ∈ fetchedBodies w i ts, ∀ line ∈ SplitNewline body,
        FindStringSubmatch sitemapRegex 2 line = []) := by
  induction ts generalizing i st with
  | nil => simp [snapshotLoop, fetchedBodies]
  | cons t ts ih =>
    simp only [snapshotLoop, fetchedBodies, (ih _ _).1, (ih _ _).2]
    unfold snapshotStep
    cases w.snapshot i t with
    | requestError err => exact ⟨Iff.rfl, Iff.rfl⟩
    | readError err => exact ⟨Iff.rfl, Iff.rfl⟩
    | body body =>
      simp only [extract, (foldl_lineStep_nil _ _ _ _).1, (foldl_lineStep_nil _ _ _ _).2,
        List.forall_mem_cons, and_assoc]
      exact ⟨trivial, trivial⟩

theorem noNotice_append (a b : List Out) (ha : NoNotice a) (hb : NoNotice b) :
    NoNotice (a ++ b) := by
  intro e he
  rcases List.mem_append.mp he with h | h
  · exact ha e h
  · exact hb e h

theorem noNotice_printVerbose (m : Str) (o : Options) (out : List Out) (h : NoNotice out) :
    NoNotice (printVerbose m o out) := by
  unfold printVerbose
  split
  · apply noNotice_append _ _ h
    intro e he
    rw [List.mem_singleton.mp he]
    exact ⟨by simp [noURLNotice], by simp [noSitemapNotice]⟩
  · exact h

theorem lineStep_noNotice (o : Options) (b : Str) (st : State) (line : Str)
    (h : NoNotice st.out) : NoNotice (lineStep o b st line).out := by
  intro e he
  by_cases hr : e.isRaw = true
  · constructor <;> (intro h2; rw [h2] at hr; exact absurd hr (by decide))
  · rw [lineStep_out] at he
    rcases List.mem_append.mp he with he | he
    · exact h e he
    · exfalso
      apply hr
      rcases List.mem_append.mp he with he | he
      · split at he
        · rw [List.mem_singleton.mp he]; rfl
        · cases he
      · split at he
        · rw [List.mem_singleton.mp he]; rfl
        · cases he

theorem foldl_lineStep_noNotice (o : Options) (b : Str) (lines : List Str) (st : State)
    (h : NoNotice st.out) : NoNotice (lines.foldl (lineStep o b) st).out := by
  induction lines generalizing st with
  | nil => exact h
  | cons l ls ih => exact ih _ (lineStep_noNotice o b st l h)

theorem snapshotLoop_noNotice (o : Options) (w : World) (b : Str) (ts : List Str) (i : Nat)
    (st : State) (h : NoNotice st.out) : NoNotice (snapshotLoop o w b i ts st).out := by
  induction ts generalizing i st with
  | nil => exact h
  | cons t ts ih =>
    apply ih
    unfold snapshotStep
    have h0 := noNotice_printVerbose
      ("[DEBUG] Getting New Timestamp Data.\n\t".toList ++ t) o st.out h
    cases w.snapshot i t with
    | requestError err => exact noNotice_printVerbose _ o _ h0
    | readError err => exact noNotice_printVerbose _ o _ h0
    | body body => exact foldl_lineStep_noNotice o b _ _ h0

theorem snapshotPhase_noNotice (o : Options) (w : World) (b : Str) (ts : List Str) :
    NoNotice (snapshotPhase o w b ts []).out := by
  unfold snapshotPhase
  apply snapshotLoop_noNotice
  show NoNotice (printMessage _ o (printMessage _ o []))
  unfold printMessage
  intro e he
  split at he
  · simp at he
    rcases he with rfl | rfl
    · exact ⟨by simp [noURLNotice], by simp [noSitemapNotice]⟩
    · exact ⟨by simp [noURLNotice], by simp [noSitemapNotice]⟩
  · cases he

theorem main_of_index (options : Options) (w : World) (b body : Str)
    (response : List (List Str)) (ts : List Str)
    (hc : (checkOptions options).2 = none) (hb : baseDomainOf options.URL = some b)
    (hi : w.index (timestampsURL b options.Limit) = .body body)
    (hu : w.unmarshal body = .ok response) (ht : indexTimestamps response = some ts) :
    main options w = ⟨notices options (snapshotPhase options w b ts []), .exit 0⟩ := by
  have h1 := (checkOptions_out options).1 hc
  have h2 : checkOptions options = ([], none) := by
    rw [← h1, ← hc]
  unfold main
  simp only [h2, hb, hi, hu, ht]

theorem notices_eq (o : Options) (st : State) :
    notices o st = st.out ++
      (if o.Paths = true ∧ o.Silent = false ∧ st.targetURLs = [] then [noURLNotice] else []) ++
      (if o.Sitemap = true ∧ o.Silent = false ∧ st.targetSitemaps = [] then [noSitemapNotice]
        else []) := by
  unfold notices printMessage noURLNotice noSitemapNotice
  cases hp : o.Paths <;> cases hs : o.Silent <;> cases hsm : o.Sitemap <;>
    by_cases hu : st.targetURLs = [] <;> by_cases hm : st.targetSitemaps = [] <;>
    simp [hu, hm]

theorem mem_notices (o : Options) (st : State) (h : NoNotice st.out) :
    (noURLNotice ∈ notices o st ↔
      o.Paths = true ∧ o.Silent = false ∧ st.targetURLs = []) ∧
    (noSitemapNotice ∈ notices o st ↔
      o.Sitemap = true ∧ o.Silent = false ∧ st.targetSitemaps = []) := by
  have h1 : noURLNotice ∉ st.out := fun hm => (h _ hm).1 rfl
  have h2 : noSitemapNotice ∉ st.out := fun hm => (h _ hm).2 rfl
  have h3 : noURLNotice ≠ noSitemapNotice := by decide
  have h4 : noSitemapNotice ≠ noURLNotice := by decide
  rw [notices_eq]
  constructor
  · by_cases c1 : o.Paths = true ∧ o.Silent = false ∧ st.targetURLs = [] <;>
    by_cases c2 : o.Sitemap = true ∧ o.Silent = false ∧ st.targetSitemaps = [] <;>
    (first | rw [if_pos c1] | rw [if_neg c1]) <;>
    (first | rw [if_pos c2] | rw [if_neg c2]) <;>
    simp [h1, h3, c1]
  · by_cases c1 : o.Paths = true ∧ o.Silent = false ∧ st.targetURLs = [] <;>
    by_cases c2 : o.Sitemap = true ∧ o.Silent = false ∧ st.targetSitemaps = [] <;>
    (first | rw [if_pos c1] | rw [if_neg c1]) <;>
    (first | rw [if_pos c2] | rw [if_neg c2]) <;>
    simp [h2, h4, c2]

/-- C9: in a run that reaches the end of the snapshot phase (the options pass
`checkOptions`, the index is fetched and decoded and its rows give the snapshot
addresses `ts`), `main` returns, the notice about paths is printed exactly when `-p` is
set, `-s` is not and the path register is empty, the notice about sitemaps exactly when
`-sm` is set, `-s` is not and the sitemap register is empty; a register is empty exactly
when no line of a fetched snapshot matched its pattern, which is the case when the
response has its header row alone. -/
theorem closing_notices (options : Options) (w : World) (b body : Str)
    (response : List (List Str)) (ts : List Str)
    (hc : (checkOptions options).2 = none) (hb : baseDomainOf options.URL = some b)
    (hi : w.index (timestampsURL b options.Limit) = .body body)
    (hu : w.unmarshal body = .ok response) (ht : indexTimestamps response = some ts) :
    (main options w).status = .exit 0 ∧
    (noURLNotice ∈ (main options w).out ↔
      options.Paths = true ∧ options.Silent = false ∧
        (snapshotPhase options w b ts []).targetURLs = []) ∧
    (noSitemapNotice ∈ (main options w).out ↔
      options.Sitemap = true ∧ options.Silent = false ∧
        (snapshotPhase options w b ts []).targetSitemaps = []) ∧
    ((snapshotPhase options w b ts []).targetURLs = [] ↔
      ∀ body ∈ fetchedBodies w 0 ts, ∀ line ∈ SplitNewline body,
        FindStringSubmatch addressRegex 1 line = []) ∧
    ((snapshotPhase options w b ts []).targetSitemaps = [] ↔
      ∀ body ∈ fetchedBodies w 0 ts, ∀ line ∈ SplitNewline body,
        FindStringSubmatch sitemapRegex 2 line = []) ∧
    (response.length = 1 →
      (noURLNotice ∈ (main options w).out ↔ options.Paths = true ∧ options.Silent = false) ∧
      (noSitemapNotice ∈ (main options w).out ↔
        options.Sitemap = true ∧ options.Silent = false)) := by
  have hmain := main_of_index options w b body response ts hc hb hi hu ht
  have hn := mem_notices options _ (snapshotPhase_noNotice options w b ts)
  have hnil := snapshotLoop_nil options w b ts 0
    { targetSitemaps := [], targetURLs := []
      out := printMessage "[+] Fetching timestamps".toList options
        (printMessage ("[+] Found [".toList ++ (toString ts.length).toList ++
          "] Timestamps.".toList) options []) }
  have hU : (snapshotPhase options w b ts []).targetURLs = [] ↔
      ∀ body ∈ fetchedBodies w 0 ts, ∀ line ∈ SplitNewline body,
        FindStringSubmatch addressRegex 1 line = [] := by
    have := hnil.1
    simpa [snapshotPhase] using this
  have hS : (snapshotPhase options w b ts []).targetSitemaps = [] ↔
      ∀ body ∈ fetchedBodies w 0 ts, ∀ line ∈ SplitNewline body,
        FindStringSubmatch sitemapRegex 2 line = [] := by
    have := hnil.2
    simpa [snapshotPhase] using this
  rw [hmain]
  refine ⟨rfl, hn.1, hn.2, hU, hS, ?_⟩
  intro hlen
  have hts : ts = [] := by
    match response, hlen, ht with
    | [header], _, ht =>
      have : indexTimestamps [header] = some [] := rfl
      rw [this] at ht
      exact (Option.some.inj ht).symm
  have hU0 : (snapshotPhase options w b ts []).targetURLs = [] := by
    rw [hU, hts]; intro body hb; cases hb
  have hS0 : (snapshotPhase options w b ts []).targetSitemaps = [] := by
    rw [hS, hts]; intro body hb; cases hb
  constructor
  · rw [hn.1]; simp [hU0]
  · rw [hn.2]; simp [hS0]

theorem closing_notices_witness :
    (checkOptions ⟨"http://example.com".toList, 10, true, true, false, false⟩).2 = none ∧
    baseDomainOf "http://example.com".toList = some "http://example.com".toList ∧
    indexTimestamps [["timestamp".toList, "original".toList]] = some [] ∧
    noURLNotice ∈ (main ⟨"http://example.com".toList, 10, true, true, false, false⟩
      ⟨fun _ => .body [], fun _ => .ok [["timestamp".toList, "original".toList]],
        fun _ _ => .requestError []⟩).out ∧
    noSitemapNotice ∈ (main ⟨"http://example.com".toList, 10, true, true, false, false⟩
      ⟨fun _ => .body [], fun _ => .ok [["timestamp".toList, "original".toList]],
        fun _ _ => .requestError []⟩).out :=
  have h := closing_notices ⟨"http://example.com".toList, 10, true, true, false, false⟩
    ⟨fun _ => .body [], fun _ => .ok [["timestamp".toList, "original".toList]],
      fun _ _ => .requestError []⟩ "http://example.com".toList []
    [["timestamp".toList, "original".toList]] [] (by decide) (by decide) rfl rfl rfl
  ⟨by decide, by decide, rfl, (h.2.2.2.2.2 rfl).1.mpr ⟨rfl, rfl⟩,
    (h.2.2.2.2.2 rfl).2.mpr ⟨rfl, rfl⟩⟩

/-! ## The base domain -/

/-- What `checkOptions` has established when it returns. -/
theorem checkOptions_accepts (o : Options) (h : (checkOptions o).2 = none) :
    o.URL ≠ [] ∧ beginsWithHttpAnyCase o.URL = true ∧ o.URL.count '/' ≤ 3 ∧
    (o.Silent && o.Verbose) = false ∧ (!o.Paths && !o.Sitemap) = false := by
  unfold checkOptions at h
  rw [hasPrefix_toLower_http] at h
  simp only [CountSlash] at h
  split_ifs at h with h1 h2 h3 h4 h5
  refine ⟨h1, ?_, ?_, ?_, ?_⟩
  · simpa using h2
  · omega
  · simpa using h4
  · simpa using h5

/-- C11 (the code at the failing input): the URL `http://` passes `checkOptions`, one `/`
is cut and the base domain `http:/` still ends in `/`; on the URL of the specification,
`http://example.com/`, the cut leaves `http://example.com`. -/
theorem baseDomain_keeps_slash :
    checkOptions ⟨"http://".toList, 10, true, false, false, false⟩ = ([], none) ∧
    baseDomainOf "http://".toList = some "http:/".toList ∧
    "http:/".toList.getLast? = some '/' ∧
    baseDomainOf "http://example.com/".toList = some "http://example.com".toList := by
  decide

/-- C17 (the code at the failing input): a payload that decodes to no rows at all makes
`response[1:]` panic: the index phase yields no list of addresses and `main` ends in a
panic with nothing printed. -/
theorem empty_response_panics :
    indexTimestamps [] = none ∧
    main ⟨"http://example.com".toList, 10, true, false, false, true⟩
        ⟨fun _ => .body "[]".toList, fun _ => .ok [], fun _ _ => .requestError []⟩
      = ⟨[], .panic⟩ := by
  constructor <;> rfl

/-- C18: when `checkOptions` returns, the URL has at least the four runes of `http`, so
reading its last byte is in bounds: `main` does not panic there and `baseDomain` is the
URL, without its last rune when that is `/`. -/
theorem last_byte_in_bounds (options : Options) (h : (checkOptions options).2 = none) :
    options.URL ≠ [] ∧ 4 ≤ options.URL.length ∧
    ∃ last, options.URL.getLast? = some last ∧
      baseDomainOf options.URL
        = some (if last = '/' then options.URL.dropLast else options.URL) := by
  obtain ⟨h1, h2, _⟩ := checkOptions_accepts options h
  have hlen : 4 ≤ options.URL.length := by
    match hu : options.URL, h2 with
    | c0 :: c1 :: c2 :: c3 :: rest, _ => simp
  refine ⟨h1, hlen, ?_⟩
  cases hl : options.URL.getLast? with
  | none => exact absurd (List.getLast?_eq_none_iff.mp hl) h1
  | some last => exact ⟨last, rfl, by simp [baseDomainOf, hl]⟩

theorem last_byte_in_bounds_witness :
    (checkOptions ⟨"http://example.com/".toList, 10, true, false, false, false⟩).2 = none ∧
    ∃ last, "http://example.com/".toList.getLast? = some last ∧
      baseDomainOf "http://example.com/".toList
        = some (if last = '/' then "http://example.com/".toList.dropLast
            else "http://example.com/".toList) :=
  ⟨by decide,
    (last_byte_in_bounds ⟨"http://example.com/".toList, 10, true, false, false, false⟩
      (by decide)).2.2⟩

/-! ## Line ends and white space after the colon -/

theorem space_eq : space = .rune isSpace := rfl

theorem skipSpace_cons (x : Char) (xs : Str) :
    skipSpace (x :: xs) = if isSpace x = true then xs else x :: xs := rfl

theorem SplitNewline_snoc (s : Str) (h : '\n' ∉ s) : SplitNewline (s ++ ['\n']) = [s, []] := by
  induction s with
  | nil => rfl
  | cons x xs ih =>
    have hx : x ≠ '\n' := fun e => h (e ▸ List.mem_cons_self _ _)
    have hxs : '\n' ∉ xs := fun e => h (List.mem_cons_of_mem _ e)
    simp [SplitNewline, hx, ih hxs]

theorem lineStep_nil (o : Options) (b : Str) (st : State) : lineStep o b st [] = st := by
  have h1 : FindStringSubmatch addressRegex 1 [] = [] := by decide
  have h2 : FindStringSubmatch sitemapRegex 2 [] = [] := by decide
  simp [lineStep, h1, h2]

/-- Extraction from a body of one line closed by a newline is the step on that line. -/
theorem extract_line_newline (o : Options) (b : Str) (st : State) (line : Str)
    (h : '\n' ∉ line) : extract o b st (line ++ ['\n']) = lineStep o b st line := by
  simp [extract, SplitNewline_snoc line h, lineStep_nil]

/-- The path match on `Allow:` followed by one blank and a text that begins with `/`. -/
theorem find_allow_blank (g : Str) (hslash : g.head? = some '/') (hnl : '\n' ∉ g) :
    FindStringSubmatch addressRegex 1 ("Allow: ".toList ++ g) = ["Allow: ".toList ++ g, g] ∧
    ∀ b : Str, finalURL b (FindStringSubmatch addressRegex 1 ("Allow: ".toList ++ g)) = b ++ g := by
  have hsp : '\n' ∉ ' ' :: g := by
    intro h
    rcases List.mem_cons.mp h with h | h
    · exact absurd h (by decide)
    · exact hnl h
  have hm : FindStringSubmatch addressRegex 1 ("Allow: ".toList ++ g)
      = ["Allow: ".toList ++ g, g] := by
    have := find_allow (' ' :: g) hsp
    simpa [skipSpace] using this
  refine ⟨hm, fun b => ?_⟩
  rw [hm]
  exact finalURL_slash b _ g hslash

theorem lineStep_allow_blank (o : Options) (b g : Str) (st : State)
    (hslash : g.head? = some '/') (hnl : '\n' ∉ g) :
    (lineStep o b st ("Allow: ".toList ++ g)).targetURLs = st.targetURLs.assign (b ++ g) true := by
  obtain ⟨hm, hu⟩ := find_allow_blank g hslash hnl
  have hlen : (FindStringSubmatch addressRegex 1 ("Allow: ".toList ++ g)).length > 0 := by
    rw [hm]; simp
  rw [lineStep_targetURLs, if_pos hlen, hu]

/-- C13: bodies are split on the newline alone, so in the body `Allow: f` closed by a
carriage return and a newline the carriage return stays in the captured fragment: the
canonical path is `b ++ f` followed by the carriage return, whereas the body closed by a
newline alone gives `b ++ f`; the two are different keys, and from empty registers the
two bodies leave two entries. -/
theorem carriage_return_kept (options : Options) (b f : Str) (st : State)
    (hslash : f.head? = some '/') (hnl : '\n' ∉ f) :
    SplitNewline ("Allow: ".toList ++ f ++ "\r\n".toList) = ["Allow: ".toList ++ f ++ ['\r'], []] ∧
    finalURL b (FindStringSubmatch addressRegex 1 ("Allow: ".toList ++ f ++ ['\r']))
      = b ++ f ++ ['\r'] ∧
    (extract options b st ("Allow: ".toList ++ f ++ "\r\n".toList)).targetURLs
      = st.targetURLs.assign (b ++ f ++ ['\r']) true ∧
    (extract options b st ("Allow: ".toList ++ f ++ "\n".toList)).targetURLs
      = st.targetURLs.assign (b ++ f) true ∧
    b ++ f ++ ['\r'] ≠ b ++ f ∧
    (extract options b (extract options b ⟨[], [], []⟩
        ("Allow: ".toList ++ f ++ "\r\n".toList))
      ("Allow: ".toList ++ f ++ "\n".toList)).targetURLs.keys = [b ++ f ++ ['\r'], b ++ f] := by
  have hs1 : (f ++ ['\r']).head? = some '/' := by
    cases f with
    | nil => simp at hslash
    | cons x xs => simpa using hslash
  have hn1 : '\n' ∉ f ++ ['\r'] := by
    simp only [List.mem_append, List.mem_singleton, not_or]
    exact ⟨hnl, by decide⟩
  have hl1 : '\n' ∉ "Allow: ".toList ++ (f ++ ['\r']) := by
    intro h
    rcases List.mem_append.mp h with h | h
    · exact absurd h (by decide)
    · exact hn1 h
  have hl2 : '\n' ∉ "Allow: ".toList ++ f := by
    simp only [List.mem_append, not_or]
    exact ⟨by decide, hnl⟩
  have e1 : "Allow: ".toList ++ f ++ "\r\n".toList
      = ("Allow: ".toList ++ (f ++ ['\r'])) ++ ['\n'] := by simp
  have e2 : "Allow: ".toList ++ f ++ "\n".toList = ("Allow: ".toList ++ f) ++ ['\n'] := by simp
  have e3 : "Allow: ".toList ++ f ++ ['\r'] = "Allow: ".toList ++ (f ++ ['\r']) := by simp
  have hne : b ++ f ++ ['\r'] ≠ b ++ f := by
    intro h
    have := congrArg List.length h
    simp at this
  have x1 : ∀ st : State, (extract options b st ("Allow: ".toList ++ f ++ "\r\n".toList)).targetURLs
      = st.targetURLs.assign (b ++ f ++ ['\r']) true := by
    intro st
    rw [e1, extract_line_newline _ _ _ _ hl1, lineStep_allow_blank _ _ _ _ hs1 hn1,
      List.append_assoc]
  have x2 : ∀ st : State, (extract options b st ("Allow: ".toList ++ f ++ "\n".toList)).targetURLs
      = st.targetURLs.assign (b ++ f) true := by
    intro st
    rw [e2, extract_line_newline _ _ _ _ hl2, lineStep_allow_blank _ _ _ _ hslash hnl]
  refine ⟨?_, ?_, x1 st, x2 st, hne, ?_⟩
  · rw [e1, SplitNewline_snoc _ hl1, e3]
  · rw [e3, (find_allow_blank _ hs1 hn1).2, List.append_assoc]
  · rw [x2, x1, keys_assign, keys_assign]
    simp [GoMap.keys, hne.symm]

theorem carriage_return_kept_witness :
    "/admin".toList.head? = some '/' ∧ '\n' ∉ "/admin".toList ∧
    (extract ⟨[], 10, true, false, false, false⟩ "http://example.com".toList
        (extract ⟨[], 10, true, false, false, false⟩ "http://example.com".toList ⟨[], [], []⟩
          ("Allow: ".toList ++ "/admin".toList ++ "\r\n".toList))
        ("Allow: ".toList ++ "/admin".toList ++ "\n".toList)).targetURLs.keys
      = ["http://example.com".toList ++ "/admin".toList ++ ['\r'],
          "http://example.com".toList ++ "/admin".toList] :=
  ⟨rfl, by decide,
    (carriage_return_kept ⟨[], 10, true, false, false, false⟩ "http://example.com".toList
      "/admin".toList ⟨[], [], []⟩ rfl (by decide)).2.2.2.2.2⟩

/-- A line that the split of a body hands to the patterns holds no newline. -/
theorem not_newline_of_mem_SplitNewline (body line : Str) (h : line ∈ SplitNewline body) :
    '\n' ∉ line := by
  induction body generalizing line with
  | nil =>
    simp only [SplitNewline, List.mem_singleton] at h
    rw [h]
    exact List.not_mem_nil _
  | cons c cs ih =>
    by_cases hc : c = '\n'
    · simp only [SplitNewline, hc, if_true, List.mem_cons] at h
      rcases h with h | h
      · rw [h]; exact List.not_mem_nil _
      · exact ih line h
    · simp only [SplitNewline, hc, if_false] at h
      cases hs : SplitNewline cs with
      | nil =>
        rw [hs] at h
        simp only [List.mem_singleton] at h
        rw [h]
        intro hm
        rcases List.mem_singleton.mp hm with e
        exact hc e.symm
      | cons l ls =>
        rw [hs] at h
        simp only [List.mem_cons] at h
        rcases h with h | h
        · rw [h]
          intro hm
          rcases List.mem_cons.mp hm with e | e
          · exact hc e.symm
          · exact ih l (by rw [hs]; exact List.mem_cons_self _ _) e
        · exact ih line (by rw [hs]; exact List.mem_cons_of_mem _ h)

/-- C16: the path pattern takes at most one white-space rune after the colon.  For runes
`w1` and `w2` of the class `\s` and a remainder `r`, when `Allow:` followed by `w1`, `w2`
and `r` is a line of a snapshot body (one of the texts into which the split on the
newline cuts the body), its canonical path is `b`, `/`, `w2`, `r`: the step on that line
registers it and prints it when `-p` is set and it is new, and so does extraction from
the line taken as a body; that path is not `b ++ r`. -/
theorem one_space_taken (options : Options) (b r body : Str) (w1 w2 : Char) (st : State)
    (h1 : isSpace w1 = true) (h2 : isSpace w2 = true)
    (hbody : "Allow:".toList ++ w1 :: w2 :: r ∈ SplitNewline body) :
    finalURL b (FindStringSubmatch addressRegex 1 ("Allow:".toList ++ w1 :: w2 :: r))
      = b ++ '/' :: w2 :: r ∧
    (lineStep options b st ("Allow:".toList ++ w1 :: w2 :: r)).targetURLs
      = st.targetURLs.assign (b ++ '/' :: w2 :: r) true ∧
    pathLines (lineStep options b st ("Allow:".toList ++ w1 :: w2 :: r)).out =
      pathLines st.out ++
        (if options.Paths = true ∧ st.targetURLs.get (b ++ '/' :: w2 :: r) = false
          then [b ++ '/' :: w2 :: r] else []) ∧
    (extract options b st ("Allow:".toList ++ w1 :: w2 :: r)).targetURLs
      = st.targetURLs.assign (b ++ '/' :: w2 :: r) true ∧
    pathLines (extract options b st ("Allow:".toList ++ w1 :: w2 :: r)).out =
      pathLines st.out ++
        (if options.Paths = true ∧ st.targetURLs.get (b ++ '/' :: w2 :: r) = false
          then [b ++ '/' :: w2 :: r] else []) ∧
    b ++ '/' :: w2 :: r ≠ b ++ r := by
  have hline : '\n' ∉ "Allow:".toList ++ w1 :: w2 :: r :=
    not_newline_of_mem_SplitNewline body _ hbody
  have hrest : '\n' ∉ w1 :: w2 :: r := fun h => hline (List.mem_append_right _ h)
  have hm : FindStringSubmatch addressRegex 1 ("Allow:".toList ++ w1 :: w2 :: r)
      = ["Allow:".toList ++ w1 :: w2 :: r, w2 :: r] := by
    rw [find_allow _ hrest, skipSpace_cons, if_pos h1]
  have hw2 : w2 ≠ '/' := by
    intro e
    rw [e] at h2
    exact absurd h2 (by decide)
  have hu : finalURL b (FindStringSubmatch addressRegex 1 ("Allow:".toList ++ w1 :: w2 :: r))
      = b ++ '/' :: w2 :: r := by
    rw [hm]
    simp [finalURL, hw2]
  have hlen : (FindStringSubmatch addressRegex 1 ("Allow:".toList ++ w1 :: w2 :: r)).length > 0 := by
    rw [hm]; simp
  have hreg : (lineStep options b st ("Allow:".toList ++ w1 :: w2 :: r)).targetURLs
      = st.targetURLs.assign (b ++ '/' :: w2 :: r) true := by
    rw [lineStep_targetURLs, if_pos hlen, hu]
  have hprint : pathLines (lineStep options b st ("Allow:".toList ++ w1 :: w2 :: r)).out =
      pathLines st.out ++
        (if options.Paths = true ∧ st.targetURLs.get (b ++ '/' :: w2 :: r) = false
          then [b ++ '/' :: w2 :: r] else []) := by
    rw [lineStep_pathLines, hu]
    simp only [hlen, true_and]
  refine ⟨hu, hreg, hprint, ?_, ?_, ?_⟩
  · rw [extract_single _ _ _ _ hline]; exact hreg
  · rw [extract_single _ _ _ _ hline]; exact hprint
  · intro h
    have := congrArg List.length h
    simp at this
    omega

theorem one_space_taken_witness :
    isSpace ' ' = true ∧ isSpace '\t' = true ∧
    "Allow:".toList ++ ' ' :: '\t' :: "/x".toList
      ∈ SplitNewline "User-agent: *\nAllow: \t/x\nSitemap: /s".toList ∧
    finalURL "http://example.com".toList
        (FindStringSubmatch addressRegex 1 ("Allow:".toList ++ ' ' :: '\t' :: "/x".toList))
      = "http://example.com".toList ++ '/' :: '\t' :: "/x".toList :=
  ⟨rfl, rfl, by decide,
    (one_space_taken ⟨[], 10, true, false, false, false⟩ "http://example.com".toList
      "/x".toList "User-agent: *\nAllow: \t/x\nSitemap: /s".toList ' ' '\t' ⟨[], [], []⟩
      rfl rfl (by decide)).1⟩

/-! ## The shape of canonical paths -/

theorem finalURL_joined (b : Str) (m : List Str) : IsJoined b (finalURL b m) := by
  unfold finalURL
  simp only []
  split
  · split
    · exact ⟨_, rfl, Or.inr rfl⟩
    · rename_i h
      exact ⟨_, rfl, Or.inr (by simpa using h)⟩
  · rename_i h
    exact ⟨_, rfl, Or.inl (List.length_eq_zero.mp (Nat.eq_zero_of_not_pos h))⟩

theorem lineStep_joined (o : Options) (b : Str) (st : State) (line : Str)
    (h : ∀ u ∈ st.targetURLs.keys, IsJoined b u) :
    ∀ u ∈ (lineStep o b st line).targetURLs.keys, IsJoined b u := by
  rw [lineStep_targetURLs]
  split
  · rw [keys_assign]
    split
    · exact h
    · intro u hu
      rcases List.mem_append.mp hu with hu | hu
      · exact h u hu
      · rw [List.mem_singleton.mp hu]
        exact finalURL_joined b _
  · exact h

theorem foldl_lineStep_joined (o : Options) (b : Str) (lines : List Str) (st : State)
    (h : ∀ u ∈ st.targetURLs.keys, IsJoined b u) :
    ∀ u ∈ (lines.foldl (lineStep o b) st).targetURLs.keys, IsJoined b u := by
  induction lines generalizing st with
  | nil => exact h
  | cons l ls ih => exact ih _ (lineStep_joined o b st l h)

theorem snapshotLoop_joined (o : Options) (w : World) (b : Str) (ts : List Str) (i : Nat)
    (st : State) (h : ∀ u ∈ st.targetURLs.keys, IsJoined b u) :
    ∀ u ∈ (snapshotLoop o w b i ts st).targetURLs.keys, IsJoined b u := by
  induction ts generalizing i st with
  | nil => exact h
  | cons t ts ih =>
    apply ih
    unfold snapshotStep
    cases w.snapshot i t with
    | requestError err => exact h
    | readError err => exact h
    | body body => exact foldl_lineStep_joined o b _ _ h

/-- C15: whatever the match, the canonical path is the base domain followed by nothing or
by a text that begins with `/`; so every key a line adds to the path register, every key
of the register at the end of the snapshot phase and every path line printed has that
shape. -/
theorem canonical_path_shape (options : Options) (w : World) (b : Str) (ts : List Str) :
    (∀ m : List Str, IsJoined b (finalURL b m)) ∧
    (∀ (st : State) (line : Str), (∀ u ∈ st.targetURLs.keys, IsJoined b u) →
      ∀ u ∈ (lineStep options b st line).targetURLs.keys, IsJoined b u) ∧
    (∀ u ∈ (snapshotPhase options w b ts []).targetURLs.keys, IsJoined b u) ∧
    (∀ u ∈ pathLines (snapshotPhase options w b ts []).out, IsJoined b u) := by
  have hk : ∀ u ∈ (snapshotPhase options w b ts []).targetURLs.keys, IsJoined b u := by
    unfold snapshotPhase
    apply snapshotLoop_joined
    intro u hu
    cases hu
  refine ⟨finalURL_joined b, lineStep_joined options b, hk, ?_⟩
  intro u hu
  rw [(snapshotPhase_inv options w b ts).2.2.2.2.1] at hu
  split at hu
  · exact hk u hu
  · cases hu

/-! ## Extraction twice -/

theorem assign_of_get (m : GoMap) (k : Str) (h : m.get k = true) : m.assign k true = m := by
  induction m with
  | nil => simp [GoMap.get] at h
  | cons e m ih =>
    obtain ⟨k1, v1⟩ := e
    by_cases hk : k1 = k
    · simp only [GoMap.get, hk, if_true] at h
      simp [GoMap.assign, hk, h]
    · simp only [GoMap.get, hk, if_false] at h
      simp [GoMap.assign, hk, ih h]

theorem get_assign (m : GoMap) (k1 k : Str) :
    (m.assign k1 true).get k = (if k1 = k then true else m.get k) := by
  induction m with
  | nil => simp [GoMap.assign, GoMap.get]
  | cons e m ih =>
    obtain ⟨k2, v2⟩ := e
    by_cases h : k2 = k1
    · subst h
      by_cases h2 : k2 = k <;> simp [GoMap.assign, GoMap.get, h2]
    · by_cases h2 : k2 = k
      · subst h2
        have h3 : ¬ k1 = k2 := fun e => h e.symm
        simp [GoMap.assign, GoMap.get, h, h3]
      · simp [GoMap.assign, GoMap.get, h, h2, ih]

theorem get_assign_of_get (m : GoMap) (k1 k : Str) (h : m.get k = true) :
    (m.assign k1 true).get k = true := by
  rw [get_assign]; split <;> simp [h]

theorem lineStep_get_mono (o : Options) (b : Str) (st : State) (line : Str) :
    (∀ k, st.targetURLs.get k = true → (lineStep o b st line).targetURLs.get k = true) ∧
    (∀ k, st.targetSitemaps.get k = true →
      (lineStep o b st line).targetSitemaps.get k = true) := by
  rw [lineStep_targetURLs, lineStep_targetSitemaps]
  constructor
  · intro k hk
    split
    · exact get_assign_of_get _ _ _ hk
    · exact hk
  · intro k hk
    split
    · exact get_assign_of_get _ _ _ hk
    · exact hk

theorem lineStep_covers_mono (o : Options) (b : Str) (st : State) (line l : Str)
    (h : Covers b st l) : Covers b (lineStep o b st line) l :=
  ⟨fun hm => (lineStep_get_mono o b st line).1 _ (h.1 hm),
    fun hm => (lineStep_get_mono o b st line).2 _ (h.2 hm)⟩

theorem lineStep_covers_self (o : Options) (b : Str) (st : State) (line : Str) :
    Covers b (lineStep o b st line) line := by
  constructor
  · intro hm
    rw [lineStep_targetURLs, if_pos hm, get_assign, if_pos rfl]
  · intro hm
    rw [lineStep_targetSitemaps, if_pos hm, get_assign, if_pos rfl]

theorem lineStep_of_covers (o : Options) (b : Str) (st : State) (line : Str)
    (h : Covers b st line) : lineStep o b st line = st := by
  obtain ⟨h1, h2⟩ := h
  cases st with
  | mk sms urls out =>
    unfold lineStep
    by_cases c1 : (FindStringSubmatch addressRegex 1 line).length > 0 <;>
    by_cases c2 : (FindStringSubmatch sitemapRegex 2 line).length > 0
    · have g1 := h1 c1
      have g2 := h2 c2
      simp only [] at g1 g2
      simp [c1, c2, g1, g2, assign_of_get]
    · have g1 := h1 c1
      simp only [] at g1
      simp [c1, c2, g1, assign_of_get]
    · have g2 := h2 c2
      simp only [] at g2
      simp [c1, c2, g2, assign_of_get]
    · simp [c1, c2]

theorem foldl_covers_mono (o : Options) (b : Str) (lines : List Str) (st : State) (l : Str)
    (h : Covers b st l) : Covers b (lines.foldl (lineStep o b) st) l := by
  induction lines generalizing st with
  | nil => exact h
  | cons x xs ih => exact ih _ (lineStep_covers_mono o b st x l h)

theorem foldl_covers (o : Options) (b : Str) (lines : List Str) (st : State) :
    ∀ l ∈ lines, Covers b (lines.foldl (lineStep o b) st) l := by
  induction lines generalizing st with
  | nil => intro l hl; cases hl
  | cons x xs ih =>
    intro l hl
    rcases List.mem_cons.mp hl with rfl | hl
    · exact foldl_covers_mono o b xs _ _ (lineStep_covers_self o b st l)
    · exact ih _ l hl

theorem foldl_of_covers (o : Options) (b : Str) (lines : List Str) (st : State)
    (h : ∀ l ∈ lines, Covers b st l) : lines.foldl (lineStep o b) st = st := by
  induction lines with
  | nil => rfl
  | cons x xs ih =>
    rw [List.foldl_cons, lineStep_of_covers o b st x (h x (List.mem_cons_self _ _))]
    exact ih (fun l hl => h l (List.mem_cons_of_mem _ hl))

/-- C14: extraction from the same body a second time, right after the first, changes
nothing: both registers and the output are as the first extraction left them, so no path
and no sitemap is printed again; this holds from any state of the registers. -/
theorem extract_twice (options : Options) (b : Str) (st : State) (body : Str) :
    extract options b (extract options b st body) body = extract options b st body ∧
    (extract options b (extract options b st body) body).targetURLs
      = (extract options b st body).targetURLs ∧
    (extract options b (extract options b st body) body).targetSitemaps
      = (extract options b st body).targetSitemaps ∧
    pathLines (extract options b (extract options b st body) body).out
      = pathLines (extract options b st body).out ∧
    sitemapLines (extract options b (extract options b st body) body).out
      = sitemapLines (extract options b st body).out := by
  have h : extract options b (extract options b st body) body = extract options b st body :=
    foldl_of_covers options b (SplitNewline body) _ (foldl_covers options b _ st)
  refine ⟨h, ?_, ?_, ?_, ?_⟩ <;> rw [h]

/-! ## The printed lines of a run -/

theorem mem_dedupFirst (l : List Str) (x : Str) : x ∈ dedupFirst l ↔ x ∈ l := by
  induction l with
  | nil => simp [dedupFirst]
  | cons a as ih =>
    simp only [dedupFirst, List.mem_cons, List.mem_filter, ih, decide_eq_true_eq]
    by_cases h : x = a <;> simp [h]

theorem nodup_dedupFirst (l : List Str) : (dedupFirst l).Nodup := by
  induction l with
  | nil => simp [dedupFirst]
  | cons a as ih =>
    simp only [dedupFirst, List.nodup_cons, List.mem_filter, decide_eq_true_eq]
    exact ⟨fun h => h.2 rfl, ih.filter _⟩

/-- Registering a list of keys in order: new keys are appended in the order of their
first occurrence. -/
theorem keys_foldl_assign (cs : List Str) (m : GoMap) :
    (cs.foldl (fun m k => GoMap.assign m k true) m).keys
      = m.keys ++ (dedupFirst cs).filter (fun y => decide (y ∉ m.keys)) := by
  induction cs generalizing m with
  | nil => simp [dedupFirst]
  | cons c cs ih =>
    rw [List.foldl_cons, ih, keys_assign]
    simp only [dedupFirst]
    by_cases hc : c ∈ m.keys
    · rw [if_pos hc, List.filter_cons_of_neg (by simpa using hc), List.filter_filter]
      congr 1
      apply List.filter_congr
      intro y _
      by_cases hy : y ∈ m.keys
      · simp [hy]
      · have : y ≠ c := fun e => hy (e ▸ hc)
        simp [hy, this]
    · rw [if_neg hc, List.filter_cons_of_pos (by simpa using hc), List.filter_filter,
        List.append_assoc, List.singleton_append]
      congr 2
      apply List.filter_congr
      intro y _
      by_cases hy : y ∈ m.keys <;> by_cases hyc : y = c <;> simp [hy, hyc]

theorem foldl_lineStep_registers (o : Options) (b : Str) (lines : List Str) (st : State) :
    (lines.foldl (lineStep o b) st).targetURLs
      = (pathCandidates b lines).foldl (fun m k => GoMap.assign m k true) st.targetURLs ∧
    (lines.foldl (lineStep o b) st).targetSitemaps
      = (sitemapCandidates lines).foldl (fun m k => GoMap.assign m k true)
          st.targetSitemaps := by
  induction lines generalizing st with
  | nil => exact ⟨rfl, rfl⟩
  | cons l ls ih =>
    rw [List.foldl_cons, (ih _).1, (ih _).2, lineStep_targetURLs, lineStep_targetSitemaps]
    constructor
    · by_cases h : (FindStringSubmatch addressRegex 1 l).length > 0 <;>
        simp [pathCandidates, h]
    · by_cases h : (FindStringSubmatch sitemapRegex 2 l).length > 0 <;>
        simp [sitemapCandidates, h]

theorem pathCandidates_append (b : Str) (l1 l2 : List Str) :
    pathCandidates b (l1 ++ l2) = pathCandidates b l1 ++ pathCandidates b l2 := by
  simp [pathCandidates]

theorem sitemapCandidates_append (l1 l2 : List Str) :
    sitemapCandidates (l1 ++ l2) = sitemapCandidates l1 ++ sitemapCandidates l2 := by
  simp [sitemapCandidates]

theorem snapshotLoop_registers (o : Options) (w : World) (b : Str) (ts : List Str) (i : Nat)
    (st : State) :
    (snapshotLoop o w b i ts st).targetURLs
      = (pathCandidates b (allLines (fetchedBodies w i ts))).foldl
          (fun m k => GoMap.assign m k true) st.targetURLs ∧
    (snapshotLoop o w b i ts st).targetSitemaps
      = (sitemapCandidates (allLines (fetchedBodies w i ts))).foldl
          (fun m k => GoMap.assign m k true) st.targetSitemaps := by
  induction ts generalizing i st with
  | nil => exact ⟨rfl, rfl⟩
  | cons t ts ih =>
    simp only [snapshotLoop, fetchedBodies, (ih _ _).1, (ih _ _).2]
    unfold snapshotStep
    cases w.snapshot i t with
    | requestError err => exact ⟨rfl, rfl⟩
    | readError err => exact ⟨rfl, rfl⟩
    | body body =>
      simp only [allLines, pathCandidates_append, sitemapCandidates_append, List.foldl_append,
        extract, (foldl_lineStep_registers _ _ _ _).1, (foldl_lineStep_registers _ _ _ _).2]
      exact ⟨trivial, trivial⟩

theorem snapshotPhase_keys (o : Options) (w : World) (b : Str) (ts : List Str) :
    (snapshotPhase o w b ts []).targetURLs.keys
      = dedupFirst (pathCandidates b (allLines (fetchedBodies w 0 ts))) ∧
    (snapshotPhase o w b ts []).targetSitemaps.keys
      = dedupFirst (sitemapCandidates (allLines (fetchedBodies w 0 ts))) := by
  unfold snapshotPhase
  rw [(snapshotLoop_registers _ _ _ _ _ _).1, (snapshotLoop_registers _ _ _ _ _ _).2,
    keys_foldl_assign, keys_foldl_assign]
  simp [GoMap.keys]

/-- C12: in a run that reaches the snapshot phase, the path lines printed are, when `-p`
is set, the canonical paths of the path-matching lines of the fetched bodies, body by
body and line by line, deduplicated in the order of first occurrence: each one that
occurs is printed exactly once and nothing else is printed as a path; without `-p` none
is printed.  The same holds for the sitemap lines and `-sm`. -/
theorem printed_lines (options : Options) (w : World) (b body : Str)
    (response : List (List Str)) (ts : List Str)
    (hc : (checkOptions options).2 = none) (hb : baseDomainOf options.URL = some b)
    (hi : w.index (timestampsURL b options.Limit) = .body body)
    (hu : w.unmarshal body = .ok response) (ht : indexTimestamps response = some ts) :
    pathLines (main options w).out
      = (if options.Paths = true then
          dedupFirst (pathCandidates b (allLines (fetchedBodies w 0 ts))) else []) ∧
    sitemapLines (main options w).out
      = (if options.Sitemap = true then
          dedupFirst (sitemapCandidates (allLines (fetchedBodies w 0 ts))) else []) ∧
    (options.Paths = true → (pathLines (main options w).out).Nodup ∧
      ∀ u : Str, u ∈ pathLines (main options w).out
        ↔ u ∈ pathCandidates b (allLines (fetchedBodies w 0 ts))) ∧
    (options.Sitemap = true → (sitemapLines (main options w).out).Nodup ∧
      ∀ u : Str, u ∈ sitemapLines (main options w).out
        ↔ u ∈ sitemapCandidates (allLines (fetchedBodies w 0 ts))) := by
  have hmain := main_of_index options w b body response ts hc hb hi hu ht
  have hinv := snapshotPhase_inv options w b ts
  have hk := snapshotPhase_keys options w b ts
  have hP : pathLines (main options w).out
      = (if options.Paths = true then
          dedupFirst (pathCandidates b (allLines (fetchedBodies w 0 ts))) else []) := by
    rw [hmain]
    show pathLines (notices options _) = _
    rw [pathLines_notices, hinv.2.2.2.2.1, hk.1]
  have hS : sitemapLines (main options w).out
      = (if options.Sitemap = true then
          dedupFirst (sitemapCandidates (allLines (fetchedBodies w 0 ts))) else []) := by
    rw [hmain]
    show sitemapLines (notices options _) = _
    rw [sitemapLines_notices, hinv.2.2.2.2.2, hk.2]
  refine ⟨hP, hS, ?_, ?_⟩
  · intro hp
    rw [hP, if_pos hp]
    exact ⟨nodup_dedupFirst _, mem_dedupFirst _⟩
  · intro hs
    rw [hS, if_pos hs]
    exact ⟨nodup_dedupFirst _, mem_dedupFirst _⟩

theorem printed_lines_witness :
    (checkOptions ⟨"http://example.com".toList, 10, true, true, false, false⟩).2 = none ∧
    baseDomainOf "http://example.com".toList = some "http://example.com".toList ∧
    indexTimestamps [["timestamp".toList, "original".toList],
      ["2020".toList, "u".toList], ["2021".toList, "u".toList]]
      = some ["http://web.archive.org/web/2020if_/u".toList,
          "http://web.archive.org/web/2021if_/u".toList] ∧
    pathLines (main ⟨"http://example.com".toList, 10, true, true, false, false⟩
      ⟨fun _ => .body [], fun _ => .ok [["timestamp".toList, "original".toList],
          ["2020".toList, "u".toList], ["2021".toList, "u".toList]],
        fun i _ => if i = 0 then .body "Allow: /a\nDisallow: /b\nAllow: /a".toList
          else .body "Disallow: /b\nAllow: /c\nSitemap: /s".toList⟩).out
      = ["http://example.com/a".toList, "http://example.com/b".toList,
          "http://example.com/c".toList] :=
  ⟨by decide, by decide, by decide,
    (printed_lines ⟨"http://example.com".toList, 10, true, true, false, false⟩
      ⟨fun _ => .body [], fun _ => .ok [["timestamp".toList, "original".toList],
          ["2020".toList, "u".toList], ["2021".toList, "u".toList]],
        fun i _ => if i = 0 then .body "Allow: /a\nDisallow: /b\nAllow: /a".toList
          else .body "Disallow: /b\nAllow: /c\nSitemap: /s".toList⟩
      "http://example.com".toList [] [["timestamp".toList, "original".toList],
          ["2020".toList, "u".toList], ["2021".toList, "u".toList]]
      ["http://web.archive.org/web/2020if_/u".toList,
          "http://web.archive.org/web/2021if_/u".toList]
      (by decide) (by decide) rfl rfl (by decide)).1.trans (by decide)⟩

end RoboFinder
